import Mathlib

/-!
The deployment lifecycle and the HDFS exporter of ckman

A shallow embedding of `controller/deploy.go` (`DeployPackage`) and of
`cmd/exporter/exporter.go` (`getSlots`, `export`, `exportSlot`, the size
accounting of `main`), followed by the properties proved about them.

Conventions of the embedding:
* a Go `error` is an `Option`: `none` is `nil`;
* a Go `string` is a `List Char`;
* a `time.Time` is a whole number of seconds since the Unix epoch, read in UTC;
* a float64 is its exact value, a mantissa of 53 binary digits and an exponent, and the
  operations round to the nearest value, ties to even;
* calls on external systems (the installer behind `deploy.Deploy`, the ClickHouse
  connection) are explicit: their results are inputs of the model and the calls
  that are made are recorded in the state.
-/

namespace Ckman

/-! ## controller/deploy.go -/

/-- The status codes of package `model` that `DeployPackage` returns. The package is
not part of the sources at hand, so the codes are a parameter of the model. -/
structure Codes where
  SUCCESS : Int
  INIT_PACKAGE_FAIL : Int
  PREPARE_PACKAGE_FAIL : Int
  INSTALL_PACKAGE_FAIL : Int
  CONFIG_PACKAGE_FAIL : Int
  START_PACKAGE_FAIL : Int
  CHECK_PACKAGE_FAIL : Int

/-- The codes as the API comment on `DeployCk` documents them. -/
def docCodes : Codes :=
  { SUCCESS := 200, INIT_PACKAGE_FAIL := 5011, PREPARE_PACKAGE_FAIL := 5012,
    INSTALL_PACKAGE_FAIL := 5013, CONFIG_PACKAGE_FAIL := 5014,
    START_PACKAGE_FAIL := 5015, CHECK_PACKAGE_FAIL := 5016 }

/-- The six methods of the `deploy.Deploy` interface that `DeployPackage` calls. -/
inductive Step where
  | Init | Prepare | Install | Config | Start | Check
  deriving DecidableEq

/-- An implementation of `deploy.Deploy` over installer state `σ`: every method
returns its error (`none` for `nil`) and the state it leaves behind. -/
structure Deploy (σ β γ : Type) where
  Init : β → γ → σ → Option String × σ
  Prepare : σ → Option String × σ
  Install : σ → Option String × σ
  Config : σ → Option String × σ
  Start : σ → Option String × σ
  Check : σ → Option String × σ

/-- What a call of `DeployPackage` leaves: the two returned values, the installer
state, and the methods that were called, in call order. -/
structure DeployRun (σ : Type) where
  code : Int
  err : Option String
  state : σ
  invoked : List Step

/-- The function `DeployPackage` of deploy.go. -/
def DeployPackage {σ β γ : Type} (model : Codes) (d : Deploy σ β γ) (base : β) (conf : γ)
    (s : σ) : DeployRun σ :=
  match d.Init base conf s with
  | (some err, s1) => ⟨model.INIT_PACKAGE_FAIL, some err, s1, [Step.Init]⟩
  | (none, s1) =>
    match d.Prepare s1 with
    | (some err, s2) => ⟨model.PREPARE_PACKAGE_FAIL, some err, s2, [Step.Init, Step.Prepare]⟩
    | (none, s2) =>
      match d.Install s2 with
      | (some err, s3) =>
        ⟨model.INSTALL_PACKAGE_FAIL, some err, s3, [Step.Init, Step.Prepare, Step.Install]⟩
      | (none, s3) =>
        match d.Config s3 with
        | (some err, s4) =>
          ⟨model.CONFIG_PACKAGE_FAIL, some err, s4,
            [Step.Init, Step.Prepare, Step.Install, Step.Config]⟩
        | (none, s4) =>
          match d.Start s4 with
          | (some err, s5) =>
            ⟨model.START_PACKAGE_FAIL, some err, s5,
              [Step.Init, Step.Prepare, Step.Install, Step.Config, Step.Start]⟩
          | (none, s5) =>
            match d.Check s5 with
            | (some err, s6) =>
              ⟨model.CHECK_PACKAGE_FAIL, some err, s6,
                [Step.Init, Step.Prepare, Step.Install, Step.Config, Step.Start, Step.Check]⟩
            | (none, s6) =>
              ⟨model.SUCCESS, none, s6,
                [Step.Init, Step.Prepare, Step.Install, Step.Config, Step.Start, Step.Check]⟩

/-- The lifecycle order. -/
def lifecycle : List Step :=
  [Step.Init, Step.Prepare, Step.Install, Step.Config, Step.Start, Step.Check]

/-- The code that belongs to a failure of the given step. -/
def failCode (model : Codes) : Step → Int
  | Step.Init => model.INIT_PACKAGE_FAIL
  | Step.Prepare => model.PREPARE_PACKAGE_FAIL
  | Step.Install => model.INSTALL_PACKAGE_FAIL
  | Step.Config => model.CONFIG_PACKAGE_FAIL
  | Step.Start => model.START_PACKAGE_FAIL
  | Step.Check => model.CHECK_PACKAGE_FAIL

/-- One method of the installer, selected by its step. -/
def callStep {σ β γ : Type} (d : Deploy σ β γ) (base : β) (conf : γ) : Step → σ → Option String × σ
  | Step.Init => d.Init base conf
  | Step.Prepare => d.Prepare
  | Step.Install => d.Install
  | Step.Config => d.Config
  | Step.Start => d.Start
  | Step.Check => d.Check

/-- The installer state after the given steps have run one after the other. -/
def stateAfter {σ β γ : Type} (d : Deploy σ β γ) (base : β) (conf : γ) (s : σ) : List Step → σ
  | [] => s
  | st :: rest => stateAfter d base conf (callStep d base conf st s).2 rest

/-- The error that lifecycle step number `k` (from 0) returns when the steps before it
have run. -/
def stepError {σ β γ : Type} (d : Deploy σ β γ) (base : β) (conf : γ) (s : σ) (k : Nat) :
    Option String :=
  match lifecycle.get? k with
  | none => none
  | some st => (callStep d base conf st (stateAfter d base conf s (lifecycle.take k))).1


/-! ## cmd/exporter/exporter.go: time values and their text -/

/-- A `time.Time`: whole seconds since 1970-01-01 00:00:00 UTC. -/
abbrev Time := Int

/-- The byte `'0' + d` of Go's `appendInt`. -/
def digitChar (d : Nat) : Char := Char.ofNat (48 + d)

/-- The decimal digits of `u`, most significant first, as the loop of `appendInt`
assembles them; `fuel` bounds the rounds of the loop. -/
def decimal : Nat → Nat → List Char
  | 0, _ => []
  | fuel + 1, u => if 10 ≤ u then decimal fuel (u / 10) ++ [digitChar (u % 10)] else [digitChar u]

/-- Go's `appendInt(b, x, width)` of package time: a minus sign for a negative `x`, then
the decimal digits padded with zeros to at least `width`. -/
def appendInt (x : Int) (width : Nat) : List Char :=
  (if x < 0 then ['-'] else []) ++
    List.replicate (width - (decimal (x.natAbs + 1) x.natAbs).length) '0' ++
    decimal (x.natAbs + 1) x.natAbs

/-- Year, month and day of the proleptic Gregorian calendar for a day number counted
from 1970-01-01, the date that `time.Time.Format` prints in UTC. -/
def civilFromDays (days : Int) : Int × Int × Int :=
  let z := days + 719468
  let era := z / 146097
  let doe := z - era * 146097
  let yoe := (doe - doe / 1460 + doe / 36524 - doe / 146096) / 365
  let doy := doe - (365 * yoe + yoe / 4 - yoe / 100)
  let mp := (5 * doy + 2) / 153
  let d := doy - (153 * mp + 2) / 5 + 1
  let m := if mp < 10 then mp + 3 else mp - 9
  (if m ≤ 2 then yoe + era * 400 + 1 else yoe + era * 400, m, d)

/-- The day number, counted from 1970-01-01, of a Gregorian date. -/
def daysFromCivil (y m d : Int) : Int :=
  let y1 := if m ≤ 2 then y - 1 else y
  let era := y1 / 400
  let yoe := y1 - era * 400
  let mp := if 2 < m then m - 3 else m + 9
  let doy := (153 * mp + 2) / 5 + d - 1
  let doe := yoe * 365 + yoe / 4 - yoe / 100 + doy
  era * 146097 + doe - 719468

/-- The text `t.Format("20060102150405")`. -/
def format14 (t : Time) : List Char :=
  let date := civilFromDays (t / 86400)
  let sec := t % 86400
  appendInt date.1 4 ++ appendInt date.2.1 2 ++ appendInt date.2.2 2 ++
    appendInt (sec / 3600) 2 ++ appendInt (sec % 3600 / 60) 2 ++ appendInt (sec % 60) 2

/-- The text `t.Format(tsLayout)` for `tsLayout = "2006-01-02 15:04:05"`. -/
def formatTsLayout (t : Time) : List Char :=
  let date := civilFromDays (t / 86400)
  let sec := t % 86400
  appendInt date.1 4 ++ "-".toList ++ appendInt date.2.1 2 ++ "-".toList ++
    appendInt date.2.2 2 ++ " ".toList ++ appendInt (sec / 3600) 2 ++ ":".toList ++
    appendInt (sec % 3600 / 60) 2 ++ ":".toList ++ appendInt (sec % 60) 2

/-! ## path/filepath -/

/-- The elements of a path: the pieces between its slashes. -/
def splitSlash : List Char → List (List Char)
  | [] => [[]]
  | c :: cs =>
    if c = '/' then [] :: splitSlash cs
    else
      match splitSlash cs with
      | [] => [[c]]
      | e :: es => (c :: e) :: es

/-- One element in `filepath.Clean`: an empty element and `.` are dropped, `..` removes
the element before it (or stays, in a path that is not rooted and has nothing left to
remove), any other element is kept. `out` holds the elements written so far. -/
def cleanElem (rooted : Bool) (out : List (List Char)) (e : List Char) : List (List Char) :=
  if e = [] ∨ e = ['.'] then out
  else if e = ['.', '.'] then
    match out.getLast? with
    | none => if rooted then out else out ++ [e]
    | some l => if l = ['.', '.'] then out ++ [e] else out.dropLast
  else out ++ [e]

/-- Go's `filepath.Clean` on a slash separated path. -/
def Clean (path : List Char) : List Char :=
  if path = [] then ['.']
  else
    let rooted := path.head? = some '/'
    let out := (splitSlash path).foldl (cleanElem rooted) []
    if rooted then '/' :: List.intercalate ['/'] out
    else if out = [] then ['.'] else List.intercalate ['/'] out

/-- Go's `filepath.Join` of two elements. -/
def Join (a b : List Char) : List Char :=
  if a ≠ [] then Clean (a ++ '/' :: b)
  else if b ≠ [] then Clean b
  else []


/-! ## cmd/exporter/exporter.go: configuration -/

/-- The package level variables of exporter.go that the planner and the pipeline read.
`tsBegin` and `tsEnd` are the instants that the two configured texts denote under
`tsLayout` (`main` stops with a panic when they do not parse). -/
structure Globals where
  tables : List (List Char × List Char)
  tsBegin : Time
  tsEnd : Time
  maxFileSize : Nat
  tryIntervals : List (List Char)
  hdfsAddr : List Char
  hdfsDir : List Char
  /-- The value of a `uint64(x)` conversion whose operand is outside the range of
  `uint64`; Go leaves it to the implementation. -/
  outOfRange : Nat

/-- The values written in the `var` block of exporter.go. -/
def defaults : Globals :=
  { tables := [("sensor_dt_result_online22".toList, "@time".toList)]
    tsBegin := 0
    tsEnd := 1604188800
    maxFileSize := 10000000000
    tryIntervals := ["1 year".toList, "1 month".toList, "1 week".toList, "1 day".toList,
      "4 hour".toList, "1 hour".toList]
    hdfsAddr := "192.168.101.102:8020".toList
    hdfsDir := "/user/root".toList
    outOfRange := 9223372036854775808 }

/-- The map lookup `tables[table]`: the empty string for a missing key. -/
def tsColumnOf (g : Globals) (table : List Char) : List Char :=
  match g.tables.find? (fun kv => kv.1 = table) with
  | some kv => kv.2
  | none => []

/-- The run directory that `main` stores in `hdfsDir` before any export starts. -/
def runDir (g : Globals) : List Char :=
  Join g.hdfsDir (format14 g.tsBegin ++ "_".toList ++ format14 g.tsEnd)

/-! ## cmd/exporter/exporter.go: getSlots -/

/-- What the connection of one host answers about one table: the three scalar queries of
`selectUint64` and, for the grouped aggregation number `i` with the given interval, either
a query error or the rows of the result, each of which scans or fails to scan. -/
structure TableDB where
  count : Except String Nat
  compressed : Except String Nat
  countInRange : Except String Nat
  groups : Nat → List Char → Except String (List (Except String (Time × Nat)))

/-- The state of the row loop `LOOP_RS` when it is left. -/
structure ScanOutcome where
  slots : List Time
  err : Option String
  tooBigSlot : Bool

/-- The loop `for rows1.Next()` of getSlots over the rows of one aggregation;
`notLast` is `i != len(tryIntervals)-1`. -/
def scanRows (maxRowsCnt : Nat) (notLast : Bool) :
    List (Except String (Time × Nat)) → List Time → ScanOutcome
  | [], slots => ⟨slots, none, false⟩
  | Except.error e :: _, slots => ⟨slots, some e, false⟩
  | Except.ok (slot, rowsCnt) :: rest, slots =>
    if maxRowsCnt < rowsCnt ∧ notLast = true then ⟨slots, none, true⟩
    else scanRows maxRowsCnt notLast rest (slots ++ [slot])

/-- What the loop over `tryIntervals` leaves: the two results of getSlots and the
intervals of the aggregations that were sent, in the order they were sent. -/
structure PlanOutcome where
  slots : List Time
  err : Option String
  issued : List (List Char)

/-- The loop `for i, interval := range tryIntervals` of getSlots, from index `i` on;
`n` is `len(tryIntervals)` and `slots` is the slice as the previous iteration left it. -/
def tryLoop (db : TableDB) (maxRowsCnt n : Nat) :
    Nat → List (List Char) → List Time → List (List Char) → PlanOutcome
  | _, [], slots, issued => ⟨slots, none, issued⟩
  | i, interval :: rest, _, issued =>
    match db.groups i interval with
    | Except.error e => ⟨[], some e, issued ++ [interval]⟩
    | Except.ok rows =>
      let r := scanRows maxRowsCnt (decide (i ≠ n - 1)) rows []
      match r.err with
      | some e => ⟨r.slots, some e, issued ++ [interval]⟩
      | none =>
        if r.tooBigSlot then tryLoop db maxRowsCnt n (i + 1) rest r.slots (issued ++ [interval])
        else ⟨r.slots, none, issued ++ [interval]⟩

/-! ## float64 arithmetic of getSlots -/

/-- A float64 that is not negative: zero, the number `m * 2 ^ e`, plus infinity, or not
a number. The values of getSlots are conversions of unsigned integers and quotients of
such, so no sign is needed. -/
inductive Float64 where
  | zero
  | finite (m : Nat) (e : Int)
  | inf
  | nan
  deriving DecidableEq

/-- The number of binary digits of `n`; `fuel` bounds the halvings. -/
def bitLength : Nat → Nat → Nat
  | 0, _ => 0
  | fuel + 1, n => if n = 0 then 0 else bitLength fuel (n / 2) + 1

/-- Numerator and denominator of `p / q / 2 ^ e`. -/
def scaleBy (p q : Nat) (e : Int) : Nat × Nat :=
  if 0 ≤ e then (p, q * 2 ^ e.toNat) else (p * 2 ^ (-e).toNat, q)

/-- The float64 nearest to the quotient `p / q` of two naturals (`q` not zero), ties going
to the even mantissa: a mantissa of 53 binary digits, exponents from -1074 to 971,
infinity above the largest finite value. -/
def roundRatio (p q : Nat) : Float64 :=
  if p = 0 then Float64.zero
  else
    let e1 : Int := (bitLength p p : Int) - (bitLength q q : Int) - 53
    let e2 : Int := if 2 ^ 53 * (scaleBy p q e1).2 ≤ (scaleBy p q e1).1 then e1 + 1 else e1
    let e : Int := max e2 (-1074)
    let n := (scaleBy p q e).1
    let d := (scaleBy p q e).2
    let m := if d < 2 * (n % d) ∨ (2 * (n % d) = d ∧ n / d % 2 = 1) then n / d + 1 else n / d
    if m = 0 then Float64.zero
    else if m = 2 ^ 53 then
      (if 971 < e + 1 then Float64.inf else Float64.finite (2 ^ 52) (e + 1))
    else if 971 < e then Float64.inf
    else Float64.finite m e

/-- The conversion `float64(n)` of an unsigned integer. -/
def Float64.ofNat (n : Nat) : Float64 := roundRatio n 1

/-- The float64 division `x / y`. -/
def Float64.div : Float64 → Float64 → Float64
  | Float64.nan, _ => Float64.nan
  | _, Float64.nan => Float64.nan
  | Float64.zero, Float64.zero => Float64.nan
  | Float64.zero, _ => Float64.zero
  | Float64.inf, Float64.inf => Float64.nan
  | Float64.inf, _ => Float64.inf
  | Float64.finite _ _, Float64.zero => Float64.inf
  | Float64.finite _ _, Float64.inf => Float64.zero
  | Float64.finite m1 e1, Float64.finite m2 e2 =>
    roundRatio (m1 * 2 ^ (e1 - e2).toNat) (m2 * 2 ^ (e2 - e1).toNat)

/-- The conversion `uint64(x)`: the integer part; a value that no `uint64` holds converts
to `outOfRange`, the value of the implementation. -/
def Float64.toUint64 (outOfRange : Nat) : Float64 → Nat
  | Float64.zero => 0
  | Float64.finite m e =>
    if (if 0 ≤ e then m * 2 ^ e.toNat else m / 2 ^ (-e).toNat) < 2 ^ 64 then
      (if 0 ≤ e then m * 2 ^ e.toNat else m / 2 ^ (-e).toNat)
    else outOfRange
  | Float64.inf => outOfRange
  | Float64.nan => outOfRange

/-- The variable `sizePerRow = float64(compressed) / float64(rowsCnt)`. -/
def sizePerRow (compressed rowsCnt : Nat) : Float64 :=
  Float64.div (Float64.ofNat compressed) (Float64.ofNat rowsCnt)

/-- The conversion `uint64(sizePerRow)` in `tblEstSize`. -/
def truncSizePerRow (g : Globals) (compressed rowsCnt : Nat) : Nat :=
  Float64.toUint64 g.outOfRange (sizePerRow compressed rowsCnt)

/-- The budget `maxRowsCnt := uint64(float64(maxFileSize) / sizePerRow)`. -/
def maxRowsCntOf (g : Globals) (compressed rowsCnt : Nat) : Nat :=
  Float64.toUint64 g.outOfRange
    (Float64.div (Float64.ofNat g.maxFileSize) (sizePerRow compressed rowsCnt))

/-- What a call of getSlots leaves: its two results, the value of the shared counter
`estSize`, and the grouped aggregations it sent. -/
structure SlotsRun where
  slots : List Time
  err : Option String
  estSize : Nat
  issued : List (List Char)

/-- The function `getSlots` of exporter.go for one host and table, whose connection
answers as `db`; `estSize` is the shared counter before the call. -/
def getSlots (g : Globals) (db : TableDB) (estSize : Nat) : SlotsRun :=
  match db.count with
  | Except.error e => ⟨[], some e, estSize, []⟩
  | Except.ok rowsCnt =>
    if rowsCnt = 0 then ⟨[], none, estSize, []⟩
    else
      match db.compressed with
      | Except.error e => ⟨[], some e, estSize, []⟩
      | Except.ok compressed =>
        let maxRowsCnt := maxRowsCntOf g compressed rowsCnt
        match db.countInRange with
        | Except.error e => ⟨[], some e, estSize, []⟩
        | Except.ok totalRowsCnt =>
          let tblEstSize := totalRowsCnt * truncSizePerRow g compressed rowsCnt % 2 ^ 64
          let p := tryLoop db maxRowsCnt g.tryIntervals.length 0 g.tryIntervals [] []
          ⟨p.slots, p.err, (estSize + tblEstSize) % 2 ^ 64, p.issued⟩

/-! ## cmd/exporter/exporter.go: export and exportSlot -/

/-- One call `exportSlot(host, table, seq, slotBeg, slotEnd)`. -/
structure ExportUnit where
  host : List Char
  table : List Char
  seq : Nat
  slotBeg : Time
  slotEnd : Time
  deriving DecidableEq

/-- The function `export` of exporter.go (`export` is a keyword here): the calls of
exportSlot it makes, in order. -/
def exportUnits (g : Globals) (host table : List Char) (slots : List Time) : List ExportUnit :=
  (List.range slots.length).map fun i =>
    { host := host, table := table, seq := i, slotBeg := slots.getD i 0,
      slotEnd := if i ≠ slots.length - 1 then slots.getD (i + 1) 0 else g.tsEnd }

/-- The name `hdfsTbl` of the staging table. -/
def hdfsTbl (table : List Char) (slotBeg : Time) : List Char :=
  "hdfs_".toList ++ table ++ "_".toList ++ format14 slotBeg

/-- The destination path `fp` of a unit. -/
def fp (g : Globals) (host table : List Char) (slotBeg : Time) : List Char :=
  Join g.hdfsDir (table ++ "_".toList ++ host ++ "_".toList ++ format14 slotBeg ++
    ".parquet".toList)

/-- The four statements `queries` of a unit. -/
def queries (g : Globals) (host table : List Char) (slotBeg slotEnd : Time) :
    List (List Char) :=
  [ "DROP TABLE IF EXISTS ".toList ++ hdfsTbl table slotBeg,
    "CREATE TABLE ".toList ++ hdfsTbl table slotBeg ++ " AS ".toList ++ table ++
      " ENGINE=HDFS(\x27hdfs://".toList ++ g.hdfsAddr ++ fp g host table slotBeg ++
      "\x27, \x27Parquet\x27)".toList,
    "INSERT INTO ".toList ++ hdfsTbl table slotBeg ++ " SELECT * FROM ".toList ++ table ++
      " WHERE \x60".toList ++ tsColumnOf g table ++ "\x60>=\x27".toList ++
      formatTsLayout slotBeg ++ "\x27 AND \x60".toList ++ tsColumnOf g table ++
      "\x60<\x27".toList ++ formatTsLayout slotEnd ++ "\x27".toList,
    "DROP TABLE ".toList ++ hdfsTbl table slotBeg ]

/-- The shared counter `cntErrors` (an int32) and the statements that reached `db.Exec`,
in order. -/
structure Shared where
  cntErrors : Int
  executed : List (List Char)
  deriving DecidableEq

/-- The surroundings of one unit while it runs: the error `db.Exec` returns for its
statement number `i` (from 0; `none` for `nil`), and the amount by which the other units
have moved `cntErrors` since this unit last looked, when it makes flag check number `i`. -/
structure UnitEnv where
  execErr : Nat → Option String
  others : Nat → Int

/-- Wrap-around of an int32. -/
def wrapInt32 (x : Int) : Int := (x + 2 ^ 31) % 2 ^ 32 - 2 ^ 31

/-- The loop `for _, query := range queries` in the closure of exportSlot, from
statement number `i` on. -/
def runQueries (env : UnitEnv) : Nat → List (List Char) → Shared → Shared
  | _, [], st => st
  | i, query :: rest, st =>
    let seen := wrapInt32 (st.cntErrors + env.others i)
    if seen ≠ 0 then { st with cntErrors := seen }
    else
      match env.execErr i with
      | some _ => { cntErrors := wrapInt32 (seen + 1), executed := st.executed ++ [query] }
      | none => runQueries env (i + 1) rest { cntErrors := seen, executed := st.executed ++ [query] }

/-- The unit of work that `exportSlot` submits to the pool. -/
def exportSlot (env : UnitEnv) (g : Globals) (host table : List Char) (_seq : Nat)
    (slotBeg slotEnd : Time) (st : Shared) : Shared :=
  runQueries env 0 (queries g host table slotBeg slotEnd) st


/-- The loop of `main` over the tables of the hosts, as far as the planner is concerned:
the value of `estSize` when every getSlots call has returned, or the error on which
`log.Fatalf` ends the process. The atomic additions commute, so the calls are taken one
after the other. -/
def planAll (g : Globals) : List TableDB → Nat → Except String Nat
  | [], estSize => Except.ok estSize
  | db :: rest, estSize =>
    match (getSlots g db estSize).err with
    | some e => Except.error e
    | none => planAll g rest (getSlots g db estSize).estSize

/-! ## The ClickHouse side of the statements -/

/-- The answers of a connection on which no query and no scan fails. -/
structure TableStats where
  rowsCnt : Nat
  compressed : Nat
  totalRowsCnt : Nat
  groups : Nat → List Char → List (Time × Nat)

/-- The connection that answers with the given numbers and groups. -/
def TableStats.db (t : TableStats) : TableDB :=
  { count := Except.ok t.rowsCnt
    compressed := Except.ok t.compressed
    countInRange := Except.ok t.totalRowsCnt
    groups := fun i interval => Except.ok ((t.groups i interval).map Except.ok) }

/-- A table on one host: the values of its time column, row by row, and the compressed
size of its active parts. -/
structure TableData where
  times : List Time
  compressedBytes : Nat

/-- The condition `ts >= tsBegin AND ts < tsEnd` of the counting and grouping queries. -/
def inRange (g : Globals) (t : Time) : Bool := decide (g.tsBegin ≤ t) && decide (t < g.tsEnd)

/-- One more row for `GROUP BY slot ORDER BY slot`: the groups stay ascending by slot. -/
def addToGroups (k : Time) : List (Time × Nat) → List (Time × Nat)
  | [] => [(k, 1)]
  | (k1, c) :: rest =>
    if k < k1 then (k, 1) :: (k1, c) :: rest
    else if k = k1 then (k1, c + 1) :: rest
    else (k1, c) :: addToGroups k rest

/-- The rows of `SELECT slot, count() ... GROUP BY slot ORDER BY slot` for the given
slot values. -/
def groupCount (keys : List Time) : List (Time × Nat) := keys.foldr addToGroups []

/-- The result of the grouped aggregation `sqlTmpl3` of getSlots when
`toStartOfInterval(ts, INTERVAL ...)` is the function `toStart`. -/
def aggregate (toStart : Time → Time) (g : Globals) (times : List Time) : List (Time × Nat) :=
  groupCount ((times.filter (inRange g)).map toStart)

/-- The answers of ClickHouse for a table, `toStart interval` being its
`toStartOfInterval` for the interval text. -/
def TableData.stats (toStart : List Char → Time → Time) (g : Globals) (t : TableData) :
    TableStats :=
  { rowsCnt := t.times.length
    compressed := t.compressedBytes
    totalRowsCnt := (t.times.filter (inRange g)).length
    groups := fun _ interval => aggregate (toStart interval) g t.times }

/-- ClickHouse's `toStartOfInterval` in UTC for the six intervals of `tryIntervals`:
the start of the year, of the month, of the week (a Monday), of the day, and of the block
of four hours or of one hour. Any other text leaves the time as it is. -/
def toStartOfInterval (interval : List Char) (t : Time) : Time :=
  if interval = "1 year".toList then
    daysFromCivil (civilFromDays (t / 86400)).1 1 1 * 86400
  else if interval = "1 month".toList then
    daysFromCivil (civilFromDays (t / 86400)).1 (civilFromDays (t / 86400)).2.1 1 * 86400
  else if interval = "1 week".toList then t - (t + 259200) % 604800
  else if interval = "1 day".toList then t - t % 86400
  else if interval = "4 hour".toList then t - t % 14400
  else if interval = "1 hour".toList then t - t % 3600
  else t

/-- The rows that the INSERT of a unit copies: those with `slotBeg <= ts < slotEnd`. -/
def copied (times : List Time) (u : ExportUnit) : List Time :=
  times.filter fun t => decide (u.slotBeg ≤ t) && decide (t < u.slotEnd)


/-- The value of `cntErrors` that flag check number `i + k` of a unit reads, when check
number `i` starts from the value `c` and the unit itself has added nothing. -/
def seenAt (env : UnitEnv) : Nat → Int → Nat → Int
  | i, c, 0 => wrapInt32 (c + env.others i)
  | i, c, k + 1 => seenAt env (i + 1) (wrapInt32 (c + env.others i)) k

/-! ## The statements that are checked against the code -/

/-- Every group of an aggregation result is within the row budget. -/
def fits (maxRowsCnt : Nat) (rows : List (Time × Nat)) : Bool :=
  rows.all fun r => decide (r.2 ≤ maxRowsCnt)

/-- The groups that candidate number `k` of `tryIntervals` gets from the connection. -/
def groupsAt (g : Globals) (t : TableStats) (k : Nat) : List (Time × Nat) :=
  t.groups k (g.tryIntervals.getD k [])

/-- The scenario of the specification: 100 bytes a row, a budget of 10^8 rows, one year
bucket of 2 * 10^8 rows that splits into two month buckets of 10^8 rows. -/
def scenarioStats : TableStats :=
  { rowsCnt := 200000000
    compressed := 20000000000
    totalRowsCnt := 200000000
    groups := fun _ interval =>
      if interval = "1 year".toList then [(1577836800, 200000000)]
      else [(1577836800, 100000000), (1580515200, 100000000)] }

/-- The estimated volume as it is claimed: the sum, over the tables with a nonzero
row count, of the in-range row count times the quotient of the compressed bytes by the
row count. -/
def claimedEstSize (ts : List TableStats) : ℚ :=
  (ts.map fun t =>
    if t.rowsCnt = 0 then (0 : ℚ)
    else (t.totalRowsCnt : ℚ) * ((t.compressed : ℚ) / (t.rowsCnt : ℚ))).sum

/-- The claim on the estimated volume: the run ends with `estSize` equal to
`claimedEstSize`. -/
def EstimateClaim (g : Globals) (ts : List TableStats) : Prop :=
  ∃ estSize, planAll g (ts.map TableStats.db) 0 = Except.ok estSize ∧
    (estSize : ℚ) = claimedEstSize ts

/-- The sum that the code accumulates: per table with a nonzero row count, the in-range
row count times `uint64(sizePerRow)`. -/
def truncatedEstSize (g : Globals) (ts : List TableStats) : Nat :=
  (ts.map fun t =>
    if t.rowsCnt = 0 then 0
    else t.totalRowsCnt * truncSizePerRow g t.compressed t.rowsCnt).sum

/-- A table of 1000 rows in 1500 compressed bytes, all rows in range. -/
def halfByteStats : TableStats :=
  { rowsCnt := 1000
    compressed := 1500
    totalRowsCnt := 1000
    groups := fun _ _ => [(1577836800, 1000)] }

/-- The claim on the first boundary: when a row of the table lies in the range, the
first slot that getSlots returns is `tsBegin`. -/
def FirstBoundaryClaim (g : Globals) (toStart : List Char → Time → Time) (tbl : TableData) :
    Prop :=
  (∃ t ∈ tbl.times, inRange g t = true) →
    (getSlots g (tbl.stats toStart g).db 0).slots.head? = some g.tsBegin

/-- A table with one row, of 2020-07-01 12:00:00. -/
def julyTable : TableData := { times := [1593604800], compressedBytes := 100 }

/-- The configuration of the source with the range starting at 2020-06-15 00:00:00. -/
def midJuneGlobals : Globals := { defaults with tsBegin := 1592179200 }

/-- A table with two rows, of 2020-03-01 00:00:00 and of 2020-07-01 12:00:00. -/
def marchJulyTable : TableData := { times := [1583020800, 1593604800], compressedBytes := 200 }

/-- A table with rows of 2020-07-01 12:00:00, 2020-03-01 00:00:00, 2019-05-05 05:05:05
and 2021-01-01 00:00:00, the last one after `tsEnd` of the source. -/
def fourRowTable : TableData :=
  { times := [1593604800, 1583020800, 1557032705, 1609459200], compressedBytes := 400 }

/-- The number that a list of decimal digits denotes. -/
def valueOf (l : List Char) : Nat := l.foldl (fun acc c => acc * 10 + (c.toNat - 48)) 0

/-- The integer that a text of `appendInt` denotes. -/
def parseInt : List Char → Int
  | [] => 0
  | c :: rest => if c = '-' then -(valueOf rest : Int) else (valueOf (c :: rest) : Int)

/-- The claim on the destination paths: two units that differ in host, table or slot
begin have different paths. -/
def PathUniquenessClaim (g : Globals) : Prop :=
  ∀ (host1 table1 : List Char) (s1 : Time) (host2 table2 : List Char) (s2 : Time),
    (host1, table1, s1) ≠ (host2, table2, s2) →
    fp g host1 table1 s1 ≠ fp g host2 table2 s2

/-- An installer that records the methods called on it and whose `Install` fails. -/
def failingInstall : Deploy (List Step) Unit Unit :=
  { Init := fun _ _ s => (none, s ++ [Step.Init])
    Prepare := fun s => (none, s ++ [Step.Prepare])
    Install := fun s => (some "no space left on device", s ++ [Step.Install])
    Config := fun s => (none, s ++ [Step.Config])
    Start := fun s => (none, s ++ [Step.Start])
    Check := fun s => (none, s ++ [Step.Check]) }

/-- An installer that records the methods called on it and never fails. -/
def recordingInstaller : Deploy (List Step) Unit Unit :=
  { Init := fun _ _ s => (none, s ++ [Step.Init])
    Prepare := fun s => (none, s ++ [Step.Prepare])
    Install := fun s => (none, s ++ [Step.Install])
    Config := fun s => (none, s ++ [Step.Config])
    Start := fun s => (none, s ++ [Step.Start])
    Check := fun s => (none, s ++ [Step.Check]) }

/-- Surroundings of a unit in which the INSERT statement (number 2) fails and no other
unit touches the counter. -/
def insertFails : UnitEnv :=
  { execErr := fun i => if i = 2 then some "Code: 210. DB::NetException" else none
    others := fun _ => 0 }

/-- Surroundings of a unit in which another unit records a failure while the first
statement of this unit runs. -/
def otherFailsEarly : UnitEnv :=
  { execErr := fun _ => none
    others := fun i => if i = 1 then 1 else 0 }


/-! ## Properties of DeployPackage -/

theorem stepError_0 {σ β γ : Type} (d : Deploy σ β γ) (base : β) (conf : γ) (s : σ) :
    stepError d base conf s 0 = (d.Init base conf s).1 := rfl
theorem stepError_1 {σ β γ : Type} (d : Deploy σ β γ) (base : β) (conf : γ) (s : σ) :
    stepError d base conf s 1 = (d.Prepare (d.Init base conf s).2).1 := rfl
theorem stepError_2 {σ β γ : Type} (d : Deploy σ β γ) (base : β) (conf : γ) (s : σ) :
    stepError d base conf s 2 = (d.Install (d.Prepare (d.Init base conf s).2).2).1 := rfl
theorem stepError_3 {σ β γ : Type} (d : Deploy σ β γ) (base : β) (conf : γ) (s : σ) :
    stepError d base conf s 3 = (d.Config (d.Install (d.Prepare (d.Init base conf s).2).2).2).1 := rfl
theorem stepError_4 {σ β γ : Type} (d : Deploy σ β γ) (base : β) (conf : γ) (s : σ) :
    stepError d base conf s 4
      = (d.Start (d.Config (d.Install (d.Prepare (d.Init base conf s).2).2).2).2).1 := rfl
theorem stepError_5 {σ β γ : Type} (d : Deploy σ β γ) (base : β) (conf : γ) (s : σ) :
    stepError d base conf s 5
      = (d.Check (d.Start (d.Config (d.Install (d.Prepare (d.Init base conf s).2).2).2).2).2).1 := rfl

theorem stateAfter_1 {σ β γ : Type} (d : Deploy σ β γ) (base : β) (conf : γ) (s : σ) :
    stateAfter d base conf s (lifecycle.take 1) = (d.Init base conf s).2 := rfl
theorem stateAfter_2 {σ β γ : Type} (d : Deploy σ β γ) (base : β) (conf : γ) (s : σ) :
    stateAfter d base conf s (lifecycle.take 2) = (d.Prepare (d.Init base conf s).2).2 := rfl
theorem stateAfter_3 {σ β γ : Type} (d : Deploy σ β γ) (base : β) (conf : γ) (s : σ) :
    stateAfter d base conf s (lifecycle.take 3)
      = (d.Install (d.Prepare (d.Init base conf s).2).2).2 := rfl
theorem stateAfter_4 {σ β γ : Type} (d : Deploy σ β γ) (base : β) (conf : γ) (s : σ) :
    stateAfter d base conf s (lifecycle.take 4)
      = (d.Config (d.Install (d.Prepare (d.Init base conf s).2).2).2).2 := rfl
theorem stateAfter_5 {σ β γ : Type} (d : Deploy σ β γ) (base : β) (conf : γ) (s : σ) :
    stateAfter d base conf s (lifecycle.take 5)
      = (d.Start (d.Config (d.Install (d.Prepare (d.Init base conf s).2).2).2).2).2 := rfl
theorem stateAfter_6 {σ β γ : Type} (d : Deploy σ β γ) (base : β) (conf : γ) (s : σ) :
    stateAfter d base conf s lifecycle
      = (d.Check (d.Start (d.Config (d.Install (d.Prepare
          (d.Init base conf s).2).2).2).2).2).2 := rfl

/-- C9 (lifecycle of DeployPackage). The methods called are a prefix of Init, Prepare,
Install, Config, Start, Check, each applied to the installer as the methods before it
left it. When step number `k` (from 0) is the first to return an error, DeployPackage
returns that error with the code of step `k`, has called exactly the steps 0..k in this
order and no later one, and leaves the installer as those calls left it. When all six
succeed it returns (SUCCESS, nil), has called all six in this order, and leaves the
installer as the six calls left it. It returns (SUCCESS, nil) exactly when all six
succeed. -/
theorem DeployPackage_lifecycle {σ β γ : Type} (model : Codes) (d : Deploy σ β γ) (base : β)
    (conf : γ) (s : σ) :
    (DeployPackage model d base conf s).invoked <+: lifecycle ∧
    (∀ k e, k < 6 → (∀ j, j < k → stepError d base conf s j = none) →
      stepError d base conf s k = some e →
      (DeployPackage model d base conf s).err = some e ∧
      (∃ st, lifecycle.get? k = some st ∧
        (DeployPackage model d base conf s).code = failCode model st) ∧
      (DeployPackage model d base conf s).invoked = lifecycle.take (k + 1) ∧
      (DeployPackage model d base conf s).state
        = stateAfter d base conf s (lifecycle.take (k + 1))) ∧
    (((DeployPackage model d base conf s).code = model.SUCCESS ∧
        (DeployPackage model d base conf s).err = none) ↔
      ∀ k, k < 6 → stepError d base conf s k = none) ∧
    ((∀ k, k < 6 → stepError d base conf s k = none) →
      (DeployPackage model d base conf s).code = model.SUCCESS ∧
      (DeployPackage model d base conf s).err = none ∧
      (DeployPackage model d base conf s).invoked = lifecycle ∧
      (DeployPackage model d base conf s).state = stateAfter d base conf s lifecycle) := by
  have e0 := stepError_0 d base conf s
  have e1 := stepError_1 d base conf s
  have e2 := stepError_2 d base conf s
  have e3 := stepError_3 d base conf s
  have e4 := stepError_4 d base conf s
  have e5 := stepError_5 d base conf s
  have a1 := stateAfter_1 d base conf s
  have a2 := stateAfter_2 d base conf s
  have a3 := stateAfter_3 d base conf s
  have a4 := stateAfter_4 d base conf s
  have a5 := stateAfter_5 d base conf s
  have a6 := stateAfter_6 d base conf s
  have key : ∀ r : DeployRun σ, r = DeployPackage model d base conf s →
      r.invoked <+: lifecycle ∧
      (∀ k e, k < 6 → (∀ j, j < k → stepError d base conf s j = none) →
        stepError d base conf s k = some e →
        r.err = some e ∧ (∃ st, lifecycle.get? k = some st ∧ r.code = failCode model st) ∧
        r.invoked = lifecycle.take (k + 1) ∧
        r.state = stateAfter d base conf s (lifecycle.take (k + 1))) ∧
      ((r.code = model.SUCCESS ∧ r.err = none) ↔
        ∀ k, k < 6 → stepError d base conf s k = none) ∧
      ((∀ k, k < 6 → stepError d base conf s k = none) →
        r.code = model.SUCCESS ∧ r.err = none ∧ r.invoked = lifecycle ∧
        r.state = stateAfter d base conf s lifecycle) := by
    intro r hr
    unfold DeployPackage at hr
    rcases h0 : d.Init base conf s with ⟨_ | x0, s1⟩ <;>
      rw [h0] at e0 e1 e2 e3 e4 e5 a1 a2 a3 a4 a5 a6 hr <;>
      simp only at e0 e1 e2 e3 e4 e5 a1 a2 a3 a4 a5 a6 hr
    · rcases h1 : d.Prepare s1 with ⟨_ | x1, s2⟩ <;>
        rw [h1] at e1 e2 e3 e4 e5 a2 a3 a4 a5 a6 hr <;>
        simp only at e1 e2 e3 e4 e5 a2 a3 a4 a5 a6 hr
      · rcases h2 : d.Install s2 with ⟨_ | x2, s3⟩ <;>
          rw [h2] at e2 e3 e4 e5 a3 a4 a5 a6 hr <;>
          simp only at e2 e3 e4 e5 a3 a4 a5 a6 hr
        · rcases h3 : d.Config s3 with ⟨_ | x3, s4⟩ <;>
            rw [h3] at e3 e4 e5 a4 a5 a6 hr <;>
            simp only at e3 e4 e5 a4 a5 a6 hr
          · rcases h4 : d.Start s4 with ⟨_ | x4, s5⟩ <;>
              rw [h4] at e4 e5 a5 a6 hr <;>
              simp only at e4 e5 a5 a6 hr
            · rcases h5 : d.Check s5 with ⟨_ | x5, s6⟩ <;>
                rw [h5] at e5 a6 hr <;>
                simp only at e5 a6 hr
              · subst hr
                refine ⟨by simp [lifecycle], ?_, ?_, ?_⟩
                · intro k e hk hprev hke
                  interval_cases k <;> simp_all
                · constructor
                  · intro _ k hk
                    interval_cases k <;> simp_all
                  · intro _; exact ⟨rfl, rfl⟩
                · intro _
                  exact ⟨rfl, rfl, rfl, a6.symm⟩
              · subst hr
                refine ⟨by simp [lifecycle], ?_, ?_, ?_⟩
                · intro k e hk hprev hke
                  interval_cases k <;> simp_all [lifecycle, failCode]
                · constructor
                  · rintro ⟨-, h⟩; simp at h
                  · intro h; have := h 5 (by omega); simp_all
                · intro h; have := h 5 (by omega); simp_all
            · subst hr
              refine ⟨by simp [lifecycle], ?_, ?_, ?_⟩
              · intro k e hk hprev hke
                have p4 := hprev 4
                interval_cases k <;> simp_all [lifecycle, failCode]
              · constructor
                · rintro ⟨-, h⟩; simp at h
                · intro h; have := h 4 (by omega); simp_all
              · intro h; have := h 4 (by omega); simp_all
          · subst hr
            refine ⟨by simp [lifecycle], ?_, ?_, ?_⟩
            · intro k e hk hprev hke
              have p3 := hprev 3
              interval_cases k <;> simp_all [lifecycle, failCode]
            · constructor
              · rintro ⟨-, h⟩; simp at h
              · intro h; have := h 3 (by omega); simp_all
            · intro h; have := h 3 (by omega); simp_all
        · subst hr
          refine ⟨by simp [lifecycle], ?_, ?_, ?_⟩
          · intro k e hk hprev hke
            have p2 := hprev 2
            interval_cases k <;> simp_all [lifecycle, failCode]
          · constructor
            · rintro ⟨-, h⟩; simp at h
            · intro h; have := h 2 (by omega); simp_all
          · intro h; have := h 2 (by omega); simp_all
      · subst hr
        refine ⟨by simp [lifecycle], ?_, ?_, ?_⟩
        · intro k e hk hprev hke
          have p1 := hprev 1
          interval_cases k <;> simp_all [lifecycle, failCode]
        · constructor
          · rintro ⟨-, h⟩; simp at h
          · intro h; have := h 1 (by omega); simp_all
        · intro h; have := h 1 (by omega); simp_all
    · subst hr
      refine ⟨by simp [lifecycle], ?_, ?_, ?_⟩
      · intro k e hk hprev hke
        have p0 := hprev 0
        interval_cases k <;> simp_all [lifecycle, failCode]
      · constructor
        · rintro ⟨-, h⟩; simp at h
        · intro h; have := h 0 (by omega); simp_all
      · intro h; have := h 0 (by omega); simp_all
  exact key _ rfl

theorem DeployPackage_lifecycle_witness :
    ((DeployPackage docCodes failingInstall () () []).err = some "no space left on device" ∧
      (∃ st, lifecycle.get? 2 = some st ∧
        (DeployPackage docCodes failingInstall () () []).code = failCode docCodes st) ∧
      (DeployPackage docCodes failingInstall () () []).invoked = lifecycle.take 3 ∧
      (DeployPackage docCodes failingInstall () () []).state
        = stateAfter failingInstall () () [] (lifecycle.take 3)) ∧
    ((DeployPackage docCodes recordingInstaller () () []).code = docCodes.SUCCESS ∧
      (DeployPackage docCodes recordingInstaller () () []).err = none ∧
      (DeployPackage docCodes recordingInstaller () () []).invoked = lifecycle ∧
      (DeployPackage docCodes recordingInstaller () () []).state
        = stateAfter recordingInstaller () () [] lifecycle) :=
  ⟨(DeployPackage_lifecycle docCodes failingInstall () () []).2.1 2 "no space left on device"
      (by decide) (by intro j hj; interval_cases j <;> rfl) rfl,
    (DeployPackage_lifecycle docCodes recordingInstaller () () []).2.2.2
      (by intro k hk; interval_cases k <;> rfl)⟩

/-! ## Properties of exportSlot -/

theorem wrapInt32_of_int32 (x : Int) (h0 : -2 ^ 31 ≤ x) (h1 : x < 2 ^ 31) : wrapInt32 x = x := by
  unfold wrapInt32
  omega

theorem runQueries_stop (env : UnitEnv) :
    ∀ (qs : List (List Char)) (i : Nat) (st : Shared) (k : Nat), k < qs.length →
      (∀ j, j < k → seenAt env i st.cntErrors j = 0 ∧ env.execErr (i + j) = none) →
      seenAt env i st.cntErrors k ≠ 0 →
      runQueries env i qs st
        = { cntErrors := seenAt env i st.cntErrors k, executed := st.executed ++ qs.take k } := by
  intro qs
  induction qs with
  | nil => intro i st k hk; simp at hk
  | cons q rest ih =>
    intro i st k hk hprev hseen
    cases k with
    | zero =>
      simp only [seenAt] at hseen
      simp [runQueries, seenAt, hseen]
    | succ k =>
      have h0 := hprev 0 (Nat.succ_pos k)
      simp only [seenAt, Nat.add_zero] at h0
      have hrec := ih (i + 1)
        { cntErrors := wrapInt32 (st.cntErrors + env.others i), executed := st.executed ++ [q] } k
        (by simpa using hk)
        (by
          intro j hj
          have := hprev (j + 1) (Nat.succ_lt_succ hj)
          simp only [seenAt] at this
          refine ⟨this.1, ?_⟩
          have h2 := this.2
          rwa [show i + (j + 1) = i + 1 + j by omega] at h2)
        (by simpa [seenAt] using hseen)
      simp only [runQueries, h0.1, h0.2, ne_eq, not_true_eq_false, if_false]
      rw [h0.1] at hrec
      rw [hrec]
      simp [seenAt, h0.1]

theorem runQueries_fail (env : UnitEnv) (hno : ∀ i, env.others i = 0) :
    ∀ (qs : List (List Char)) (i : Nat) (st : Shared) (k : Nat), k < qs.length →
      st.cntErrors = 0 → (∀ j, j < k → env.execErr (i + j) = none) →
      env.execErr (i + k) ≠ none →
      runQueries env i qs st = { cntErrors := 1, executed := st.executed ++ qs.take (k + 1) } := by
  intro qs
  induction qs with
  | nil => intro i st k hk; simp at hk
  | cons q rest ih =>
    intro i st k hk hc hprev hfail
    have hw : wrapInt32 (st.cntErrors + env.others i) = 0 := by
      rw [hc, hno]; decide
    cases k with
    | zero =>
      simp only [Nat.add_zero] at hfail
      cases hx : env.execErr i with
      | none => exact absurd hx hfail
      | some e =>
        simp only [runQueries, hw, ne_eq, not_true_eq_false, if_false, hx]
        simp
        decide
    | succ k =>
      have h0 := hprev 0 (Nat.succ_pos k)
      simp only [Nat.add_zero] at h0
      simp only [runQueries, hw, ne_eq, not_true_eq_false, if_false, h0]
      rw [ih (i + 1) _ k (by simpa using hk) rfl
        (by
          intro j hj
          have := hprev (j + 1) (Nat.succ_lt_succ hj)
          rwa [show i + (j + 1) = i + 1 + j by omega] at this)
        (by rwa [show i + (k + 1) = i + 1 + k by omega] at hfail)]
      simp

theorem runQueries_ok (env : UnitEnv) (hno : ∀ i, env.others i = 0) :
    ∀ (qs : List (List Char)) (i : Nat) (st : Shared),
      st.cntErrors = 0 → (∀ j, j < qs.length → env.execErr (i + j) = none) →
      runQueries env i qs st = { cntErrors := 0, executed := st.executed ++ qs } := by
  intro qs
  induction qs with
  | nil => intro i st hc _; cases st; simp_all [runQueries]
  | cons q rest ih =>
    intro i st hc hall
    have hw : wrapInt32 (st.cntErrors + env.others i) = 0 := by
      rw [hc, hno]; decide
    have h0 := hall 0 (by simp)
    simp only [Nat.add_zero] at h0
    simp only [runQueries, hw, ne_eq, not_true_eq_false, if_false, h0]
    rw [ih (i + 1) _ rfl
      (by
        intro j hj
        have := hall (j + 1) (by simpa using hj)
        rwa [show i + (j + 1) = i + 1 + j by omega] at this)]
    simp

theorem queries_length (g : Globals) (host table : List Char) (slotBeg slotEnd : Time) :
    (queries g host table slotBeg slotEnd).length = 4 := rfl

/-- C5 (fail-fast propagation). A unit whose flag check number `k` is the first to read
a nonzero `cntErrors` has sent exactly the `k` statements before that check to the
database, none at or after it, and has added nothing to `cntErrors`, which keeps the
value the check read. In particular a unit that starts with a nonzero `cntErrors` (and
no move of the counter by others before its first check) sends none of its four
statements and leaves `cntErrors` as it was. -/
theorem exportSlot_fail_fast (env : UnitEnv) (g : Globals) (host table : List Char) (seq : Nat)
    (slotBeg slotEnd : Time) (st : Shared) :
    (∀ k, k < 4 →
      (∀ j, j < k → seenAt env 0 st.cntErrors j = 0 ∧ env.execErr j = none) →
      seenAt env 0 st.cntErrors k ≠ 0 →
      exportSlot env g host table seq slotBeg slotEnd st
        = { cntErrors := seenAt env 0 st.cntErrors k,
            executed := st.executed ++ (queries g host table slotBeg slotEnd).take k }) ∧
    (st.cntErrors ≠ 0 → -2 ^ 31 ≤ st.cntErrors → st.cntErrors < 2 ^ 31 → env.others 0 = 0 →
      exportSlot env g host table seq slotBeg slotEnd st = st) := by
  constructor
  · intro k hk hprev hseen
    exact runQueries_stop env _ 0 st k (by rw [queries_length]; exact hk)
      (by intro j hj; simpa using hprev j hj) hseen
  · intro hne h0 h1 hoth
    have hw : seenAt env 0 st.cntErrors 0 = st.cntErrors := by
      simp only [seenAt, hoth, add_zero]
      exact wrapInt32_of_int32 _ h0 h1
    have := runQueries_stop env (queries g host table slotBeg slotEnd) 0 st 0
      (by rw [queries_length]; decide) (by intro j hj; omega) (by rw [hw]; exact hne)
    unfold exportSlot
    rw [this, hw]
    simp

/-- C6 (failure handling of one unit). For a unit that starts with `cntErrors = 0` while
no other unit moves the counter: when statement number `k` (from 0: drop-if-exists,
create, insert, drop) is the first for which `db.Exec` returns an error, exactly the
statements 0..k have been sent, in order, none after `k`, and `cntErrors` is 1; when no
statement fails all four have been sent in order and `cntErrors` is still 0. -/
theorem exportSlot_first_failure (env : UnitEnv) (g : Globals) (host table : List Char)
    (seq : Nat) (slotBeg slotEnd : Time) (st : Shared)
    (hstart : st.cntErrors = 0) (hquiet : ∀ i, env.others i = 0) :
    (∀ k, k < 4 → (∀ j, j < k → env.execErr j = none) → env.execErr k ≠ none →
      exportSlot env g host table seq slotBeg slotEnd st
        = { cntErrors := 1,
            executed := st.executed ++ (queries g host table slotBeg slotEnd).take (k + 1) }) ∧
    ((∀ k, k < 4 → env.execErr k = none) →
      exportSlot env g host table seq slotBeg slotEnd st
        = { cntErrors := 0, executed := st.executed ++ queries g host table slotBeg slotEnd }) := by
  constructor
  · intro k hk hprev hfail
    exact runQueries_fail env hquiet _ 0 st k (by rw [queries_length]; exact hk) hstart
      (by intro j hj; simpa using hprev j hj) (by simpa using hfail)
  · intro hall
    exact runQueries_ok env hquiet _ 0 st hstart
      (by intro j hj; rw [queries_length] at hj; simpa using hall j hj)

theorem exportSlot_fail_fast_witness :
    exportSlot otherFailsEarly defaults "h".toList "t".toList 0 1577836800 1604188800 ⟨0, []⟩
      = { cntErrors := 1,
          executed := (queries defaults "h".toList "t".toList 1577836800 1604188800).take 1 } :=
  (exportSlot_fail_fast otherFailsEarly defaults "h".toList "t".toList 0 1577836800 1604188800
    ⟨0, []⟩).1 1 (by decide) (by intro j hj; interval_cases j; exact ⟨by decide, rfl⟩)
    (by decide)

theorem exportSlot_first_failure_witness :
    exportSlot insertFails defaults "h".toList "t".toList 0 1577836800 1604188800 ⟨0, []⟩
      = { cntErrors := 1,
          executed := (queries defaults "h".toList "t".toList 1577836800 1604188800).take 3 } :=
  (exportSlot_first_failure insertFails defaults "h".toList "t".toList 0 1577836800 1604188800
    ⟨0, []⟩ rfl (fun _ => rfl)).1 2 (by decide) (by intro j hj; interval_cases j <;> rfl)
    (by decide)


/-! ## Properties of getSlots -/

theorem scanRows_ok_err (maxRowsCnt : Nat) (notLast : Bool) :
    ∀ (rows : List (Time × Nat)) (slots : List Time),
      (scanRows maxRowsCnt notLast (rows.map Except.ok) slots).err = none := by
  intro rows
  induction rows with
  | nil => intro slots; rfl
  | cons r rest ih =>
    intro slots
    obtain ⟨s, c⟩ := r
    simp only [List.map_cons, scanRows]
    split_ifs
    · rfl
    · exact ih _

theorem scanRows_accept (maxRowsCnt : Nat) (notLast : Bool) :
    ∀ (rows : List (Time × Nat)) (slots : List Time),
      (fits maxRowsCnt rows = true ∨ notLast = false) →
      scanRows maxRowsCnt notLast (rows.map Except.ok) slots
        = ⟨slots ++ rows.map Prod.fst, none, false⟩ := by
  intro rows
  induction rows with
  | nil => intro slots _; simp [scanRows]
  | cons r rest ih =>
    intro slots h
    obtain ⟨s, c⟩ := r
    have hhead : ¬ (maxRowsCnt < c ∧ notLast = true) := by
      rintro ⟨h1, h2⟩
      rcases h with h | h
      · simp only [fits, List.all_cons, Bool.and_eq_true, decide_eq_true_eq] at h
        omega
      · rw [h] at h2; cases h2
    have htail : fits maxRowsCnt rest = true ∨ notLast = false := by
      rcases h with h | h
      · left
        simp only [fits, List.all_cons, Bool.and_eq_true] at h
        exact h.2
      · right; exact h
    simp only [List.map_cons, scanRows, hhead, if_false]
    rw [ih _ htail]
    simp

theorem scanRows_reject (maxRowsCnt : Nat) :
    ∀ (rows : List (Time × Nat)) (slots : List Time),
      fits maxRowsCnt rows = false →
      (scanRows maxRowsCnt true (rows.map Except.ok) slots).tooBigSlot = true := by
  intro rows
  induction rows with
  | nil => intro slots h; simp [fits] at h
  | cons r rest ih =>
    intro slots h
    obtain ⟨s, c⟩ := r
    simp only [List.map_cons, scanRows]
    by_cases hc : maxRowsCnt < c
    · simp [hc]
    · have : fits maxRowsCnt rest = false := by
        simp only [fits, List.all_cons, Bool.and_eq_false_iff, decide_eq_false_iff_not] at h
        rcases h with h | h
        · omega
        · exact h
      simp only [hc, false_and, if_false]
      exact ih _ this

theorem tryLoop_issued (db : TableDB) (maxRowsCnt n : Nat) :
    ∀ (cands : List (List Char)) (i : Nat) (slots : List Time) (issued : List (List Char)),
      ∃ m, m ≤ cands.length ∧
        (tryLoop db maxRowsCnt n i cands slots issued).issued = issued ++ cands.take m := by
  intro cands
  induction cands with
  | nil => intro i slots issued; exact ⟨0, le_refl _, by simp [tryLoop]⟩
  | cons c rest ih =>
    intro i slots issued
    simp only [tryLoop]
    cases hq : db.groups i c with
    | error e => exact ⟨1, by simp, by simp⟩
    | ok rows =>
      simp only
      cases he : (scanRows maxRowsCnt (decide (i ≠ n - 1)) rows []).err with
      | some e => exact ⟨1, by simp, by simp⟩
      | none =>
        simp only
        split_ifs
        · obtain ⟨m, hm, h⟩ := ih (i + 1)
            (scanRows maxRowsCnt (decide (i ≠ n - 1)) rows []).slots (issued ++ [c])
          exact ⟨m + 1, by simpa using hm, by rw [h]; simp⟩
        · exact ⟨1, by simp, by simp⟩

theorem tryLoop_select (t : TableStats) (maxRowsCnt n : Nat) :
    ∀ (cands : List (List Char)) (i : Nat) (slots : List Time) (issued : List (List Char)),
      cands ≠ [] → i + cands.length = n →
      ∃ k, k < cands.length ∧
        (∀ j, j < k → fits maxRowsCnt (t.groups (i + j) (cands.getD j [])) = false) ∧
        (fits maxRowsCnt (t.groups (i + k) (cands.getD k [])) = true ∨ i + k = n - 1) ∧
        tryLoop t.db maxRowsCnt n i cands slots issued
          = ⟨(t.groups (i + k) (cands.getD k [])).map Prod.fst, none,
              issued ++ cands.take (k + 1)⟩ := by
  intro cands
  induction cands with
  | nil => intro i slots issued h; exact absurd rfl h
  | cons c rest ih =>
    intro i slots issued _ hn
    have hq : t.db.groups i c = Except.ok ((t.groups i c).map Except.ok) := rfl
    by_cases hacc : fits maxRowsCnt (t.groups i c) = true ∨ i = n - 1
    · refine ⟨0, by simp, by intro j hj; omega, by simpa using hacc, ?_⟩
      have hacc2 : fits maxRowsCnt (t.groups i c) = true ∨ decide (i ≠ n - 1) = false := by
        rcases hacc with h | h
        · exact Or.inl h
        · right; simp [h]
      simp only [tryLoop, hq, scanRows_accept maxRowsCnt _ _ [] hacc2]
      simp
    · have hfit : fits maxRowsCnt (t.groups i c) = false := by
        cases hf : fits maxRowsCnt (t.groups i c) with
        | true => exact absurd (Or.inl hf) hacc
        | false => rfl
      have hlast : i ≠ n - 1 := fun h => hacc (Or.inr h)
      have hrest : rest ≠ [] := by
        rintro rfl
        simp only [List.length_cons, List.length_nil] at hn
        omega
      have hdec : decide (i ≠ n - 1) = true := by simp [hlast]
      obtain ⟨k, hk, hrej, hok, hres⟩ := ih (i + 1)
        (scanRows maxRowsCnt true ((t.groups i c).map Except.ok) []).slots (issued ++ [c]) hrest
        (by simp only [List.length_cons] at hn; omega)
      refine ⟨k + 1, by simpa using hk, ?_, ?_, ?_⟩
      · intro j hj
        cases j with
        | zero => simpa using hfit
        | succ j =>
          have := hrej j (by omega)
          simpa [show i + (j + 1) = i + 1 + j by omega] using this
      · simpa [show i + (k + 1) = i + 1 + k by omega] using hok
      · simp only [tryLoop, hq, hdec, scanRows_ok_err, scanRows_reject maxRowsCnt _ [] hfit,
          if_true]
        rw [hres]
        simp [show i + (k + 1) = i + 1 + k by omega]

theorem getSlots_stats (g : Globals) (t : TableStats) (estSize : Nat) (hrows : t.rowsCnt ≠ 0) :
    getSlots g t.db estSize
      = ⟨(tryLoop t.db (maxRowsCntOf g t.compressed t.rowsCnt) g.tryIntervals.length 0
            g.tryIntervals [] []).slots,
          (tryLoop t.db (maxRowsCntOf g t.compressed t.rowsCnt) g.tryIntervals.length 0
            g.tryIntervals [] []).err,
          (estSize + t.totalRowsCnt * truncSizePerRow g t.compressed t.rowsCnt % 2 ^ 64) % 2 ^ 64,
          (tryLoop t.db (maxRowsCntOf g t.compressed t.rowsCnt) g.tryIntervals.length 0
            g.tryIntervals [] []).issued⟩ := by
  simp [getSlots, TableStats.db, hrows]

theorem getSlots_stats_err (g : Globals) (t : TableStats) (estSize : Nat) :
    (getSlots g t.db estSize).err = none := by
  by_cases hrows : t.rowsCnt = 0
  · simp [getSlots, TableStats.db, hrows]
  · rw [getSlots_stats g t estSize hrows]
    by_cases hc : g.tryIntervals = []
    · simp [hc, tryLoop]
    · obtain ⟨k, _, _, _, hres⟩ := tryLoop_select t (maxRowsCntOf g t.compressed t.rowsCnt)
        g.tryIntervals.length g.tryIntervals 0 [] [] hc (by simp)
      rw [hres]

theorem fits_of_counts (maxRowsCnt : Nat) (l1 l2 : List (Time × Nat))
    (h : l1.map Prod.snd = l2.map Prod.snd) : fits maxRowsCnt l1 = fits maxRowsCnt l2 := by
  have e : ∀ l : List (Time × Nat),
      fits maxRowsCnt l = (l.map Prod.snd).all fun c => decide (c ≤ maxRowsCnt) := by
    intro l
    induction l with
    | nil => rfl
    | cons r rest ih =>
      simp only [fits, List.all_cons, List.map_cons] at ih ⊢
      rw [ih]
  rw [e l1, e l2, h]

theorem getSlots_select (g : Globals) (t : TableStats) (estSize : Nat)
    (hrows : t.rowsCnt ≠ 0) (hcands : g.tryIntervals ≠ []) :
    ∃ k, k < g.tryIntervals.length ∧
      (∀ j, j < k → fits (maxRowsCntOf g t.compressed t.rowsCnt) (groupsAt g t j) = false) ∧
      (fits (maxRowsCntOf g t.compressed t.rowsCnt) (groupsAt g t k) = true ∨
        k = g.tryIntervals.length - 1) ∧
      (getSlots g t.db estSize).slots = (groupsAt g t k).map Prod.fst ∧
      (getSlots g t.db estSize).err = none := by
  obtain ⟨k, hk, hrej, hok, hres⟩ := tryLoop_select t (maxRowsCntOf g t.compressed t.rowsCnt)
    g.tryIntervals.length g.tryIntervals 0 [] [] hcands (by simp)
  refine ⟨k, hk, ?_, ?_, ?_, ?_⟩
  · intro j hj
    simpa [groupsAt] using hrej j hj
  · simpa [groupsAt] using hok
  · rw [getSlots_stats g t estSize hrows, hres]
    simp [groupsAt]
  · rw [getSlots_stats g t estSize hrows, hres]

/-- C1 (selection of the granularity). On a connection that returns, for every
candidate, its ordered list of groups, for a table that has rows and a non-empty list of
candidates, getSlots returns without error exactly the full list of bucket starts, in
order, of candidate `k`, where `k` is the first candidate all of whose groups are within
`maxRowsCnt`, or the last candidate when no earlier one fits: every candidate before `k`
has a group above the budget. No bucket start of a rejected candidate gets into the
result: the result stays the same when the bucket starts of the rejected candidates are
replaced by any other values (their row counts kept), whatever the candidates after `k`
return. Whenever `k` is not the last candidate, no group of `k` exceeds the budget. -/
theorem getSlots_selection (g : Globals) (t : TableStats) (estSize : Nat)
    (hrows : t.rowsCnt ≠ 0) (hcands : g.tryIntervals ≠ []) :
    ∃ k, k < g.tryIntervals.length ∧
      (∀ j, j < k → fits (maxRowsCntOf g t.compressed t.rowsCnt) (groupsAt g t j) = false) ∧
      (fits (maxRowsCntOf g t.compressed t.rowsCnt) (groupsAt g t k) = true ∨
        k = g.tryIntervals.length - 1) ∧
      (getSlots g t.db estSize).slots = (groupsAt g t k).map Prod.fst ∧
      (getSlots g t.db estSize).err = none ∧
      (∀ u : TableStats, u.rowsCnt = t.rowsCnt → u.compressed = t.compressed →
        (∀ j, j < k → (groupsAt g u j).map Prod.snd = (groupsAt g t j).map Prod.snd) →
        groupsAt g u k = groupsAt g t k →
        (getSlots g u.db estSize).slots = (getSlots g t.db estSize).slots) ∧
      (k ≠ g.tryIntervals.length - 1 →
        ∀ r ∈ groupsAt g t k, r.2 ≤ maxRowsCntOf g t.compressed t.rowsCnt) := by
  obtain ⟨k, hk, hrej, hok, hslots, herr⟩ := getSlots_select g t estSize hrows hcands
  refine ⟨k, hk, hrej, hok, hslots, herr, ?_, ?_⟩
  · intro u hur huc hcounts hsame
    obtain ⟨k2, hk2, hrej2, hok2, hslots2, _⟩ :=
      getSlots_select g u estSize (by rw [hur]; exact hrows) hcands
    rw [hur, huc] at hrej2 hok2
    have hkk : k2 = k := by
      rcases Nat.lt_trichotomy k2 k with hlt | heq | hgt
      · have h1 : fits (maxRowsCntOf g t.compressed t.rowsCnt) (groupsAt g u k2) = true := by
          rcases hok2 with h | h
          · exact h
          · omega
        rw [fits_of_counts _ _ _ (hcounts k2 hlt), hrej k2 hlt] at h1
        cases h1
      · exact heq
      · have h1 := hrej2 k hgt
        rw [hsame] at h1
        rcases hok with h | h
        · rw [h] at h1; cases h1
        · omega
    rw [hslots2, hslots, hkk, hsame]
  · intro hne r hr
    have hfit : fits (maxRowsCntOf g t.compressed t.rowsCnt) (groupsAt g t k) = true := by
      rcases hok with h | h
      · exact h
      · exact absurd h hne
    simp only [fits, List.all_eq_true, decide_eq_true_eq] at hfit
    exact hfit r hr

set_option maxRecDepth 100000 in
theorem getSlots_selection_witness :
    ∃ k, k < defaults.tryIntervals.length ∧
      (∀ j, j < k →
        fits (maxRowsCntOf defaults scenarioStats.compressed scenarioStats.rowsCnt)
          (groupsAt defaults scenarioStats j) = false) ∧
      (fits (maxRowsCntOf defaults scenarioStats.compressed scenarioStats.rowsCnt)
          (groupsAt defaults scenarioStats k) = true ∨
        k = defaults.tryIntervals.length - 1) ∧
      (getSlots defaults scenarioStats.db 0).slots
        = (groupsAt defaults scenarioStats k).map Prod.fst ∧
      (getSlots defaults scenarioStats.db 0).err = none ∧
      (∀ u : TableStats, u.rowsCnt = scenarioStats.rowsCnt →
        u.compressed = scenarioStats.compressed →
        (∀ j, j < k →
          (groupsAt defaults u j).map Prod.snd
            = (groupsAt defaults scenarioStats j).map Prod.snd) →
        groupsAt defaults u k = groupsAt defaults scenarioStats k →
        (getSlots defaults u.db 0).slots = (getSlots defaults scenarioStats.db 0).slots) ∧
      (k ≠ defaults.tryIntervals.length - 1 →
        ∀ r ∈ groupsAt defaults scenarioStats k,
          r.2 ≤ maxRowsCntOf defaults scenarioStats.compressed scenarioStats.rowsCnt) :=
  getSlots_selection defaults scenarioStats 0 (by decide) (by decide)

/-- C10 (termination of the fallback). Whatever the connection answers, the grouped
aggregations that getSlots sends are the candidates of a prefix of `tryIntervals`, each
once and in list order, so at most `len(tryIntervals)` of them; the function is total;
and on a connection on which no query and no scan fails the returned error is nil (with
a positive row count and also without). -/
theorem getSlots_fallback_terminates (g : Globals) :
    (∀ (db : TableDB) (estSize : Nat),
      (getSlots g db estSize).issued <+: g.tryIntervals ∧
      (getSlots g db estSize).issued.length ≤ g.tryIntervals.length) ∧
    (∀ (t : TableStats) (estSize : Nat), (getSlots g t.db estSize).err = none) := by
  constructor
  · intro db estSize
    have key : (getSlots g db estSize).issued <+: g.tryIntervals := by
      unfold getSlots
      cases db.count with
      | error e => exact List.nil_prefix
      | ok rowsCnt =>
        simp only
        split_ifs
        · exact List.nil_prefix
        · cases db.compressed with
          | error e => exact List.nil_prefix
          | ok compressed =>
            simp only
            cases db.countInRange with
            | error e => exact List.nil_prefix
            | ok totalRowsCnt =>
              simp only
              obtain ⟨m, _, h⟩ := tryLoop_issued db (maxRowsCntOf g compressed rowsCnt)
                g.tryIntervals.length g.tryIntervals 0 [] []
              rw [h]
              simpa using List.take_prefix m g.tryIntervals
    exact ⟨key, key.length_le⟩
  · intro t estSize
    exact getSlots_stats_err g t estSize


/-! ## Properties of export -/

theorem exportUnits_length (g : Globals) (host table : List Char) (slots : List Time) :
    (exportUnits g host table slots).length = slots.length := by
  simp [exportUnits]

theorem exportUnits_get (g : Globals) (host table : List Char) (slots : List Time) (i : Nat)
    (hi : i < slots.length) :
    (exportUnits g host table slots).get? i
      = some { host := host, table := table, seq := i, slotBeg := slots.getD i 0,
               slotEnd := if i + 1 < slots.length then slots.getD (i + 1) 0 else g.tsEnd } := by
  have h1 : (i ≠ slots.length - 1) ↔ (i + 1 < slots.length) := by omega
  simp only [exportUnits, List.get?_eq_getElem?, List.getElem?_map, List.getElem?_range hi,
    Option.map_some', h1]

theorem pairwise_getD_lt (slots : List Time) (hinc : slots.Pairwise (· < ·)) (i j : Nat)
    (hij : i < j) (hj : j < slots.length) : slots.getD i 0 < slots.getD j 0 := by
  rw [List.getD_eq_getElem _ _ (by omega), List.getD_eq_getElem _ _ hj]
  exact (List.pairwise_iff_getElem.mp hinc) i j (by omega) hj hij

theorem pairwise_getD_le (slots : List Time) (hinc : slots.Pairwise (· < ·)) (i j : Nat)
    (hij : i ≤ j) (hj : j < slots.length) : slots.getD i 0 ≤ slots.getD j 0 := by
  rcases Nat.eq_or_lt_of_le hij with h | h
  · rw [h]
  · exact le_of_lt (pairwise_getD_lt slots hinc i j h hj)

/-- C2 (slot coverage in export). For a non-empty, strictly increasing sequence of
boundaries whose last element is before `tsEnd`, `export` calls exportSlot exactly
`len(slots)` times; call number `i` has sequence number `i` and the interval
`[slots[i], slots[i+1])`, the last one `[slots[last], tsEnd)`; the intervals of two
different calls have no instant in common; and an instant lies in the interval of some
call exactly when it lies in `[slots[0], tsEnd)`. -/
theorem export_slot_coverage (g : Globals) (host table : List Char) (slots : List Time)
    (hne : slots ≠ []) (hinc : slots.Pairwise (· < ·)) (hlast : slots.getLast hne < g.tsEnd) :
    (exportUnits g host table slots).length = slots.length ∧
    (∀ i, i < slots.length →
      (exportUnits g host table slots).get? i
        = some { host := host, table := table, seq := i, slotBeg := slots.getD i 0,
                 slotEnd := if i + 1 < slots.length then slots.getD (i + 1) 0 else g.tsEnd }) ∧
    (∀ i j u v, i < j → (exportUnits g host table slots).get? i = some u →
      (exportUnits g host table slots).get? j = some v →
      ∀ x : Time, ¬ ((u.slotBeg ≤ x ∧ x < u.slotEnd) ∧ (v.slotBeg ≤ x ∧ x < v.slotEnd))) ∧
    (∀ x : Time, (slots.head hne ≤ x ∧ x < g.tsEnd) ↔
      ∃ u ∈ exportUnits g host table slots, u.slotBeg ≤ x ∧ x < u.slotEnd) := by
  have hpos : 0 < slots.length := List.length_pos.mpr hne
  have hhead : slots.head hne = slots.getD 0 0 := by
    cases slots with
    | nil => exact absurd rfl hne
    | cons a rest => rfl
  have hlast2 : slots.getD (slots.length - 1) 0 < g.tsEnd := by
    rw [List.getD_eq_getElem _ _ (by omega)]
    rw [List.getLast_eq_getElem] at hlast
    exact hlast
  refine ⟨exportUnits_length g host table slots, exportUnits_get g host table slots, ?_, ?_⟩
  · intro i j u v hij hu hv x
    have hj : j < slots.length := by
      have := List.get?_eq_some.mp hv
      obtain ⟨h, _⟩ := this
      rwa [exportUnits_length] at h
    rw [exportUnits_get g host table slots i (by omega)] at hu
    rw [exportUnits_get g host table slots j hj] at hv
    cases hu
    cases hv
    rintro ⟨⟨_, h1⟩, ⟨h2, _⟩⟩
    simp only [show i + 1 < slots.length by omega, if_true] at h1 h2
    have h3 := pairwise_getD_le slots hinc (i + 1) j (by omega) hj
    exact absurd (lt_of_lt_of_le h1 (le_trans h3 h2)) (lt_irrefl _)
  · intro x
    constructor
    · rintro ⟨h1, h2⟩
      rw [hhead] at h1
      have hP0 : (fun i => slots.getD i 0 ≤ x) 0 := h1
      have hspec := Nat.findGreatest_spec (P := fun i => slots.getD i 0 ≤ x)
        (Nat.zero_le (slots.length - 1)) hP0
      have hle := Nat.findGreatest_le (P := fun i => slots.getD i 0 ≤ x) (slots.length - 1)
      have hmax : ∀ k, Nat.findGreatest (fun i => slots.getD i 0 ≤ x) (slots.length - 1) < k →
          k ≤ slots.length - 1 → ¬ slots.getD k 0 ≤ x :=
        fun k hk hk2 => Nat.findGreatest_is_greatest hk hk2
      generalize Nat.findGreatest (fun i => slots.getD i 0 ≤ x) (slots.length - 1) = m at *
      have hm : m < slots.length := by omega
      refine ⟨_, List.get?_mem (exportUnits_get g host table slots m hm), hspec, ?_⟩
      simp only
      split_ifs with hnext
      · exact lt_of_not_le (hmax (m + 1) (by omega) (by omega))
      · exact h2
    · rintro ⟨u, hu, h1, h2⟩
      obtain ⟨i, hi⟩ := List.get?_of_mem hu
      have hlen : i < slots.length := by
        obtain ⟨h, _⟩ := List.get?_eq_some.mp hi
        rwa [exportUnits_length] at h
      rw [exportUnits_get g host table slots i hlen] at hi
      cases hi
      simp only at h1 h2
      rw [hhead]
      refine ⟨le_trans (pairwise_getD_le slots hinc 0 i (Nat.zero_le _) hlen) h1, ?_⟩
      split_ifs at h2 with hnext
      · have h3 := pairwise_getD_le slots hinc (i + 1) (slots.length - 1) (by omega) (by omega)
        exact lt_of_lt_of_le h2 (le_trans h3 (le_of_lt hlast2))
      · exact h2

theorem export_slot_coverage_witness :
    (exportUnits defaults "h".toList "t".toList [1577836800, 1580515200]).get? 1
      = some ⟨"h".toList, "t".toList, 1, 1580515200, 1604188800⟩ ∧
    ∃ u ∈ exportUnits defaults "h".toList "t".toList [1577836800, 1580515200],
      u.slotBeg ≤ 1580000000 ∧ 1580000000 < u.slotEnd :=
  ⟨(export_slot_coverage defaults "h".toList "t".toList [1577836800, 1580515200]
      (by decide) (by decide) (by decide)).2.1 1 (by decide),
    ((export_slot_coverage defaults "h".toList "t".toList [1577836800, 1580515200]
      (by decide) (by decide) (by decide)).2.2.2 1580000000).mp ⟨by decide, by decide⟩⟩


/-! ## The estimated volume -/

theorem getSlots_stats_estSize (g : Globals) (t : TableStats) (estSize : Nat) :
    (getSlots g t.db estSize).estSize
      = if t.rowsCnt = 0 then estSize
        else (estSize + t.totalRowsCnt * truncSizePerRow g t.compressed t.rowsCnt % 2 ^ 64)
          % 2 ^ 64 := by
  by_cases hrows : t.rowsCnt = 0
  · simp [getSlots, TableStats.db, hrows]
  · rw [getSlots_stats g t estSize hrows]
    simp [hrows]

theorem planAll_stats (g : Globals) :
    ∀ (ts : List TableStats) (estSize : Nat), estSize < 2 ^ 64 →
      ∃ r, planAll g (ts.map TableStats.db) estSize = Except.ok r ∧ r < 2 ^ 64 ∧
        r % 2 ^ 64 = (estSize + truncatedEstSize g ts) % 2 ^ 64 := by
  intro ts
  induction ts with
  | nil => intro estSize h; exact ⟨estSize, rfl, h, by simp [truncatedEstSize]⟩
  | cons t rest ih =>
    intro estSize h
    have hlt : (getSlots g t.db estSize).estSize < 2 ^ 64 := by
      rw [getSlots_stats_estSize]
      split_ifs
      · exact h
      · exact Nat.mod_lt _ (by norm_num)
    obtain ⟨r, hr, hr2, hr3⟩ := ih (getSlots g t.db estSize).estSize hlt
    refine ⟨r, ?_, hr2, ?_⟩
    · simp only [List.map_cons, planAll, getSlots_stats_err]
      exact hr
    · rw [hr3, getSlots_stats_estSize]
      simp only [truncatedEstSize, List.map_cons, List.sum_cons]
      split_ifs
      · simp
      · omega

/-- C7, amended (additivity of the estimated volume). When no query fails, the run ends
with `estSize` equal, modulo 2^64, to the sum over the (host, table) pairs with a nonzero
row count of the in-range row count times `uint64(sizePerRow)`, the float64 quotient of
compressed bytes by row count converted to an unsigned integer: the conversion drops the
fraction of bytes per row before the multiplication. -/
theorem planAll_estSize (g : Globals) (ts : List TableStats) :
    planAll g (ts.map TableStats.db) 0 = Except.ok (truncatedEstSize g ts % 2 ^ 64) := by
  obtain ⟨r, hr, hr2, hr3⟩ := planAll_stats g ts 0 (by norm_num)
  rw [hr]
  congr 1
  rw [← Nat.mod_eq_of_lt hr2, hr3]
  simp

set_option maxRecDepth 100000 in
theorem float64_examples :
    maxRowsCntOf defaults 20000000000 200000000 = 100000000 ∧
    maxRowsCntOf defaults 625 7 = 111999999 ∧
    truncSizePerRow defaults 1500 1000 = 1 ∧
    truncSizePerRow defaults 9007199254740993 1 = 9007199254740992 ∧
    truncSizePerRow defaults 18446744073709551615 1 = defaults.outOfRange ∧
    maxRowsCntOf defaults 0 5 = defaults.outOfRange := by
  refine ⟨by decide, by decide, by decide, by decide, by decide, by decide⟩

set_option maxRecDepth 100000 in
/-- C7 as stated fails for a table of 1000 rows in 1500 compressed bytes, all in range:
bytes per row is 1.5 and the claimed estimate 1500, the code adds 1000 * uint64(1.5) =
1000. -/
theorem estSize_drops_fraction :
    planAll defaults [halfByteStats.db] 0 = Except.ok 1000 ∧
    claimedEstSize [halfByteStats] = 1500 ∧
    ¬ EstimateClaim defaults [halfByteStats] := by
  have h1 : planAll defaults [halfByteStats.db] 0 = Except.ok 1000 := by rfl
  have h2 : claimedEstSize [halfByteStats] = 1500 := by
    simp only [claimedEstSize, halfByteStats, List.map_cons, List.map_nil, List.sum_cons,
      List.sum_nil]
    norm_num
  refine ⟨h1, h2, ?_⟩
  rintro ⟨e, he, hq⟩
  have he2 : planAll defaults ([halfByteStats].map TableStats.db) 0 = Except.ok 1000 := h1
  rw [he2] at he
  cases he
  rw [h2] at hq
  norm_num at hq


/-! ## The boundaries against the range -/

theorem addToGroups_head (k : Time) (l : List (Time × Nat)) :
    ((addToGroups k l).map Prod.fst).head?
      = some (match (l.map Prod.fst).head? with
        | none => k
        | some h => min k h) := by
  cases l with
  | nil => rfl
  | cons p rest =>
    obtain ⟨k1, c⟩ := p
    simp only [addToGroups, List.map_cons, List.head?_cons]
    split_ifs with h1 h2
    · simp [min_eq_left (le_of_lt h1)]
    · subst h2; simp
    · have : k1 ≤ k := le_of_not_lt h1
      simp [min_eq_right this]

theorem groupCount_head (keys : List Time) (hne : keys ≠ []) :
    ∃ m ∈ keys, (∀ k ∈ keys, m ≤ k) ∧ ((groupCount keys).map Prod.fst).head? = some m := by
  induction keys with
  | nil => exact absurd rfl hne
  | cons k rest ih =>
    have hstep : ((groupCount (k :: rest)).map Prod.fst).head?
        = some (match ((groupCount rest).map Prod.fst).head? with
          | none => k
          | some h => min k h) := addToGroups_head k (groupCount rest)
    by_cases hr : rest = []
    · subst hr
      refine ⟨k, by simp, by simp, ?_⟩
      rw [hstep]
      rfl
    · obtain ⟨m, hm, hmin, hhead⟩ := ih hr
      rw [hhead] at hstep
      simp only at hstep
      rcases le_total k m with hkm | hmk
      · refine ⟨k, by simp, ?_, by rw [hstep, min_eq_left hkm]⟩
        intro x hx
        rcases List.mem_cons.mp hx with rfl | hx
        · exact le_refl _
        · exact le_trans hkm (hmin x hx)
      · refine ⟨m, List.mem_cons_of_mem _ hm, ?_, by rw [hstep, min_eq_right hmk]⟩
        intro x hx
        rcases List.mem_cons.mp hx with rfl | hx
        · exact hmk
        · exact hmin x hx

theorem aggregate_head (toStart : Time → Time) (g : Globals) (times : List Time)
    (hrow : ∃ t ∈ times, inRange g t = true) :
    ∃ t0 ∈ times, inRange g t0 = true ∧
      ((aggregate toStart g times).map Prod.fst).head? = some (toStart t0) ∧
      (∀ t ∈ times, inRange g t = true → toStart t0 ≤ toStart t) := by
  obtain ⟨t1, ht1, hin1⟩ := hrow
  have hne : (times.filter (inRange g)).map toStart ≠ [] := by
    have : times.filter (inRange g) ≠ [] :=
      List.ne_nil_of_mem (List.mem_filter.mpr ⟨ht1, hin1⟩)
    simpa using this
  obtain ⟨m, hm, hmmin, hhead⟩ := groupCount_head _ hne
  obtain ⟨t0, ht0, rfl⟩ := List.mem_map.mp hm
  refine ⟨t0, (List.mem_filter.mp ht0).1, (List.mem_filter.mp ht0).2, hhead, ?_⟩
  intro t ht hin
  exact hmmin _ (List.mem_map_of_mem _ (List.mem_filter.mpr ⟨ht, hin⟩))

/-- C8, amended (the first boundary). When a row of the table lies in `[tsBegin, tsEnd)`,
the list of candidates is not empty and no bucket start of a row in the range lies
before `tsBegin`, getSlots returns without error the bucket starts of the accepted
candidate `k` (the first candidate that fits the budget, or the last one), a non-empty
sequence whose first element is the bucket start of a row in the range, is the least
bucket start among the rows in the range, and is on or after `tsBegin`. -/
theorem getSlots_first_boundary (g : Globals) (toStart : List Char → Time → Time)
    (tbl : TableData) (estSize : Nat) (hcands : g.tryIntervals ≠ [])
    (hrow : ∃ t ∈ tbl.times, inRange g t = true)
    (haligned : ∀ interval ∈ g.tryIntervals, ∀ t ∈ tbl.times, inRange g t = true →
      g.tsBegin ≤ toStart interval t) :
    ∃ k, k < g.tryIntervals.length ∧
      (∀ j, j < k →
        fits (maxRowsCntOf g tbl.compressedBytes tbl.times.length)
          (groupsAt g (tbl.stats toStart g) j) = false) ∧
      (fits (maxRowsCntOf g tbl.compressedBytes tbl.times.length)
          (groupsAt g (tbl.stats toStart g) k) = true ∨
        k = g.tryIntervals.length - 1) ∧
      (getSlots g (tbl.stats toStart g).db estSize).err = none ∧
      (getSlots g (tbl.stats toStart g).db estSize).slots
        = (aggregate (toStart (g.tryIntervals.getD k [])) g tbl.times).map Prod.fst ∧
      ∃ t0 ∈ tbl.times, inRange g t0 = true ∧
        (getSlots g (tbl.stats toStart g).db estSize).slots.head?
          = some (toStart (g.tryIntervals.getD k []) t0) ∧
        (∀ t ∈ tbl.times, inRange g t = true →
          toStart (g.tryIntervals.getD k []) t0 ≤ toStart (g.tryIntervals.getD k []) t) ∧
        g.tsBegin ≤ toStart (g.tryIntervals.getD k []) t0 := by
  have hrows : (tbl.stats toStart g).rowsCnt ≠ 0 := by
    obtain ⟨t, ht, _⟩ := hrow
    simp only [TableData.stats]
    exact Nat.pos_iff_ne_zero.mp (List.length_pos_of_mem ht)
  obtain ⟨k, hk, hrej, hok, hslots, herr⟩ :=
    getSlots_select g (tbl.stats toStart g) estSize hrows hcands
  have hmem : g.tryIntervals.getD k [] ∈ g.tryIntervals := by
    rw [List.getD_eq_getElem _ _ hk]
    exact List.getElem_mem hk
  have hgroups : groupsAt g (tbl.stats toStart g) k
      = aggregate (toStart (g.tryIntervals.getD k [])) g tbl.times := rfl
  obtain ⟨t0, ht0, hin0, hhead, hmin⟩ :=
    aggregate_head (toStart (g.tryIntervals.getD k [])) g tbl.times hrow
  refine ⟨k, hk, hrej, hok, herr, by rw [hslots, hgroups], t0, ht0, hin0, ?_, hmin,
    haligned _ hmem t0 ht0 hin0⟩
  rw [hslots, hgroups]
  exact hhead

set_option maxRecDepth 100000 in
theorem getSlots_first_boundary_witness :
    ∃ k, k < defaults.tryIntervals.length ∧
      (∀ j, j < k →
        fits (maxRowsCntOf defaults fourRowTable.compressedBytes fourRowTable.times.length)
          (groupsAt defaults (fourRowTable.stats toStartOfInterval defaults) j) = false) ∧
      (fits (maxRowsCntOf defaults fourRowTable.compressedBytes fourRowTable.times.length)
          (groupsAt defaults (fourRowTable.stats toStartOfInterval defaults) k) = true ∨
        k = defaults.tryIntervals.length - 1) ∧
      (getSlots defaults (fourRowTable.stats toStartOfInterval defaults).db 0).err = none ∧
      (getSlots defaults (fourRowTable.stats toStartOfInterval defaults).db 0).slots
        = (aggregate (toStartOfInterval (defaults.tryIntervals.getD k [])) defaults
            fourRowTable.times).map Prod.fst ∧
      ∃ t0 ∈ fourRowTable.times, inRange defaults t0 = true ∧
        (getSlots defaults (fourRowTable.stats toStartOfInterval defaults).db 0).slots.head?
          = some (toStartOfInterval (defaults.tryIntervals.getD k []) t0) ∧
        (∀ t ∈ fourRowTable.times, inRange defaults t = true →
          toStartOfInterval (defaults.tryIntervals.getD k []) t0
            ≤ toStartOfInterval (defaults.tryIntervals.getD k []) t) ∧
        defaults.tsBegin ≤ toStartOfInterval (defaults.tryIntervals.getD k []) t0 :=
  getSlots_first_boundary defaults toStartOfInterval fourRowTable 0 (by decide)
    ⟨1593604800, by decide, by decide⟩ (by decide)

set_option maxRecDepth 100000 in
theorem fourRowTable_slots :
    (getSlots defaults (fourRowTable.stats toStartOfInterval defaults).db 0).slots
      = [1546300800, 1577836800] ∧
    (getSlots defaults (fourRowTable.stats toStartOfInterval defaults).db 0).issued
      = ["1 year".toList] := by
  refine ⟨by decide, by decide⟩

set_option maxRecDepth 100000 in
/-- C8 as stated fails under the configuration of the source: the range starts at
1970-01-01 00:00:00, the only row is of 2020-07-01 12:00:00, it lies in the range, and
the sequence that getSlots returns starts at 2020-01-01 00:00:00, the start of the year
bucket of that row. -/
theorem first_boundary_is_not_begin :
    (∃ t ∈ julyTable.times, inRange defaults t = true) ∧
    (getSlots defaults (julyTable.stats toStartOfInterval defaults).db 0).slots = [1577836800] ∧
    defaults.tsBegin = 0 ∧
    ¬ FirstBoundaryClaim defaults toStartOfInterval julyTable := by
  have h1 : ∃ t ∈ julyTable.times, inRange defaults t = true := ⟨1593604800, by decide, by decide⟩
  have h2 : (getSlots defaults (julyTable.stats toStartOfInterval defaults).db 0).slots
      = [1577836800] := by decide
  refine ⟨h1, h2, rfl, ?_⟩
  intro hclaim
  have := hclaim h1
  rw [h2] at this
  revert this
  decide

set_option maxRecDepth 100000 in
/-- C4 at the failing input. With the range starting at 2020-06-15 and rows of
2020-03-01 and 2020-07-01, only the July row is in the range; getSlots accepts the year
candidate and returns the single boundary 2020-01-01, which is before `tsBegin`; `export`
makes one call, for `[2020-01-01, 2020-11-01)`; its INSERT statement selects both rows,
the March row included, which is outside the range. -/
theorem export_copies_row_before_tsBegin :
    (getSlots midJuneGlobals (marchJulyTable.stats toStartOfInterval midJuneGlobals).db 0).slots
      = [1577836800] ∧
    (1577836800 : Time) < midJuneGlobals.tsBegin ∧
    exportUnits midJuneGlobals "h".toList "sensor_dt_result_online22".toList [1577836800]
      = [⟨"h".toList, "sensor_dt_result_online22".toList, 0, 1577836800, 1604188800⟩] ∧
    (queries midJuneGlobals "h".toList "sensor_dt_result_online22".toList 1577836800
        1604188800).get? 2
      = some ("INSERT INTO hdfs_sensor_dt_result_online22_20200101000000 SELECT * FROM ".toList
          ++ "sensor_dt_result_online22 WHERE \x60@time\x60>=\x272020-01-01 00:00:00\x27".toList
          ++ " AND \x60@time\x60<\x272020-11-01 00:00:00\x27".toList) ∧
    copied marchJulyTable.times
        ⟨"h".toList, "sensor_dt_result_online22".toList, 0, 1577836800, 1604188800⟩
      = [1583020800, 1593604800] ∧
    inRange midJuneGlobals 1583020800 = false := by
  refine ⟨by decide, by decide, by decide, by decide, by decide, by decide⟩


/-! ## The destination paths -/

theorem digitChar_toNat : ∀ d, d < 10 → (digitChar d).toNat = 48 + d := by decide

theorem digitChar_ne : ∀ d, d < 10 →
    digitChar d ≠ '-' ∧ digitChar d ≠ '_' ∧ digitChar d ≠ '/' := by decide

theorem decimal_mem : ∀ (fuel u : Nat) (c : Char), c ∈ decimal fuel u →
    ∃ d, d < 10 ∧ c = digitChar d := by
  intro fuel
  induction fuel with
  | zero => intro u c h; simp [decimal] at h
  | succ fuel ih =>
    intro u c h
    simp only [decimal] at h
    split_ifs at h with h10
    · rcases List.mem_append.mp h with h | h
      · exact ih _ _ h
      · exact ⟨u % 10, Nat.mod_lt _ (by norm_num), by simpa using h⟩
    · exact ⟨u, by omega, by simpa using h⟩

theorem valueOf_append_singleton (l : List Char) (c : Char) :
    valueOf (l ++ [c]) = valueOf l * 10 + (c.toNat - 48) := by
  simp [valueOf, List.foldl_append]

theorem valueOf_decimal : ∀ (fuel u : Nat), u < 10 ^ fuel → valueOf (decimal fuel u) = u := by
  intro fuel
  induction fuel with
  | zero => intro u h; simp at h; subst h; rfl
  | succ fuel ih =>
    intro u h
    simp only [decimal]
    split_ifs with h10
    · rw [valueOf_append_singleton, ih (u / 10) (by rw [pow_succ] at h; omega),
        digitChar_toNat _ (Nat.mod_lt _ (by norm_num))]
      omega
    · have hu : u < 10 := by omega
      simp only [valueOf, List.foldl_cons, List.foldl_nil, digitChar_toNat u hu]
      omega

theorem valueOf_zeros (k : Nat) (l : List Char) :
    valueOf (List.replicate k '0' ++ l) = valueOf l := by
  induction k with
  | zero => rfl
  | succ k ih =>
    simp only [List.replicate_succ, List.cons_append, valueOf, List.foldl_cons] at ih ⊢
    exact ih

theorem decimal_ne_nil (fuel u : Nat) : decimal (fuel + 1) u ≠ [] := by
  simp only [decimal]
  split_ifs <;> simp

theorem appendInt_mem (x : Int) (width : Nat) (c : Char) (h : c ∈ appendInt x width) :
    c = '-' ∨ ∃ d, d < 10 ∧ c = digitChar d := by
  simp only [appendInt, List.mem_append] at h
  rcases h with (h | h) | h
  · split_ifs at h
    · left; simpa using h
    · simp at h
  · right
    exact ⟨0, by norm_num, by rw [(List.mem_replicate.mp h).2]; rfl⟩
  · right
    exact decimal_mem _ _ _ h

theorem parseInt_appendInt (x : Int) (width : Nat) : parseInt (appendInt x width) = x := by
  have hval : valueOf (List.replicate (width - (decimal (x.natAbs + 1) x.natAbs).length) '0'
      ++ decimal (x.natAbs + 1) x.natAbs) = x.natAbs := by
    rw [valueOf_zeros, valueOf_decimal _ _ (Nat.lt_pow_self (by norm_num) _ |>.trans_le
      (Nat.pow_le_pow_right (by norm_num) (Nat.le_succ _)))]
  by_cases hneg : x < 0
  · simp only [appendInt, hneg, if_true, List.append_assoc, List.singleton_append,
      List.cons_append, List.nil_append, parseInt]
    rw [hval]
    omega
  · have hne : List.replicate (width - (decimal (x.natAbs + 1) x.natAbs).length) '0'
        ++ decimal (x.natAbs + 1) x.natAbs ≠ [] := by
      intro h
      exact decimal_ne_nil _ _ (List.append_eq_nil.mp h).2
    have hmem : ∀ c ∈ List.replicate (width - (decimal (x.natAbs + 1) x.natAbs).length) '0'
        ++ decimal (x.natAbs + 1) x.natAbs, c ≠ '-' := by
      intro c hc
      rcases List.mem_append.mp hc with h | h
      · rw [(List.mem_replicate.mp h).2]; decide
      · obtain ⟨d, hd, rfl⟩ := decimal_mem _ _ _ h
        exact (digitChar_ne d hd).1
    simp only [appendInt, hneg, if_false, List.nil_append]
    revert hval hne hmem
    generalize List.replicate (width - (decimal (x.natAbs + 1) x.natAbs).length) '0'
        ++ decimal (x.natAbs + 1) x.natAbs = l
    intro hval hne hmem
    cases l with
    | nil => exact absurd rfl hne
    | cons c rest =>
      have : c ≠ '-' := hmem c (by simp)
      simp only [parseInt, this, if_false, hval]
      omega

theorem appendInt_injective (width : Nat) (x y : Int)
    (h : appendInt x width = appendInt y width) : x = y := by
  rw [← parseInt_appendInt x width, ← parseInt_appendInt y width, h]

theorem appendInt_two_length : ∀ n : Nat, n < 100 → (appendInt (n : Int) 2).length = 2 := by
  decide

theorem doy_aux (a b c d e f g : Int) (ha : 0 ≤ a) (ha1 : a ≤ 146096)
    (he : e = a / 1460) (hf : f = a / 36524) (hg : g = a / 146096)
    (hb : b = (a - e + f - g) / 365) (hc : c = b / 4) (hd : d = b / 100) :
    0 ≤ a - (365 * b + c - d) ∧ a - (365 * b + c - d) ≤ 365 ∧ 0 ≤ b ∧ b ≤ 399 := by
  have h1 : f = 0 ∨ f = 1 ∨ f = 2 ∨ f = 3 ∨ f = 4 := by omega
  have h2 : g = 0 ∨ g = 1 := by omega
  have h3 : d = 0 ∨ d = 1 ∨ d = 2 ∨ d = 3 := by omega
  rcases h1 with h1 | h1 | h1 | h1 | h1 <;> rcases h2 with h2 | h2 <;>
    rcases h3 with h3 | h3 | h3 | h3 <;> omega

theorem month_day_aux (doy : Int) (h0 : 0 ≤ doy) (h1 : doy ≤ 365) :
    0 ≤ (5 * doy + 2) / 153 ∧ (5 * doy + 2) / 153 ≤ 11 ∧
    1 ≤ doy - (153 * ((5 * doy + 2) / 153) + 2) / 5 + 1 ∧
    doy - (153 * ((5 * doy + 2) / 153) + 2) / 5 + 1 ≤ 31 := by
  omega

theorem civil_back_aux (era yoe doy mp : Int) (hy0 : 0 ≤ yoe) (hy1 : yoe ≤ 399)
    (hm0 : 0 ≤ mp) (hm1 : mp ≤ 11) :
    daysFromCivil
        (if (if mp < 10 then mp + 3 else mp - 9) ≤ 2 then yoe + era * 400 + 1
          else yoe + era * 400)
        (if mp < 10 then mp + 3 else mp - 9)
        (doy - (153 * mp + 2) / 5 + 1)
      = era * 146097 + (yoe * 365 + yoe / 4 - yoe / 100 + doy) - 719468 := by
  simp only [daysFromCivil]
  split_ifs <;> omega

theorem civilFromDays_spec (z : Int) :
    daysFromCivil (civilFromDays z).1 (civilFromDays z).2.1 (civilFromDays z).2.2 = z ∧
    1 ≤ (civilFromDays z).2.1 ∧ (civilFromDays z).2.1 ≤ 12 ∧
    1 ≤ (civilFromDays z).2.2 ∧ (civilFromDays z).2.2 ≤ 31 := by
  simp only [civilFromDays]
  generalize hera : (z + 719468) / 146097 = era
  generalize hdoe : z + 719468 - era * 146097 = doe
  have hdoe0 : 0 ≤ doe := by omega
  have hdoe1 : doe ≤ 146096 := by omega
  obtain ⟨hd0, hd1, hy0, hy1⟩ := doy_aux doe _ _ _ _ _ _ hdoe0 hdoe1 rfl rfl rfl rfl rfl rfl
  generalize hyoe : (doe - doe / 1460 + doe / 36524 - doe / 146096) / 365 = yoe at *
  generalize hdoy : doe - (365 * yoe + yoe / 4 - yoe / 100) = doy at *
  obtain ⟨hm0, hm1, hday0, hday1⟩ := month_day_aux doy hd0 hd1
  generalize hmp : (5 * doy + 2) / 153 = mp at *
  refine ⟨?_, ?_, ?_, hday0, hday1⟩
  · rw [civil_back_aux era yoe doy mp hy0 hy1 hm0 hm1]
    omega
  · split_ifs <;> omega
  · split_ifs <;> omega

theorem appendInt_two_length_int (x : Int) (h0 : 0 ≤ x) (h1 : x < 100) :
    (appendInt x 2).length = 2 := by
  obtain ⟨n, rfl⟩ := Int.eq_ofNat_of_zero_le h0
  exact appendInt_two_length n (by omega)

theorem format14_injective (a b : Time) (h : format14 a = format14 b) : a = b := by
  obtain ⟨hra, hma0, hma1, hda0, hda1⟩ := civilFromDays_spec (a / 86400)
  obtain ⟨hrb, hmb0, hmb1, hdb0, hdb1⟩ := civilFromDays_spec (b / 86400)
  have ha0 : (0 : Int) ≤ a % 86400 := Int.emod_nonneg _ (by norm_num)
  have ha1 : a % 86400 < (86400 : Int) := Int.emod_lt_of_pos _ (by norm_num)
  have hb0 : (0 : Int) ≤ b % 86400 := Int.emod_nonneg _ (by norm_num)
  have hb1 : b % 86400 < (86400 : Int) := Int.emod_lt_of_pos _ (by norm_num)
  simp only [format14, List.append_assoc] at h
  have l1 := appendInt_two_length_int (civilFromDays (a / 86400)).2.1 (by omega) (by omega)
  have l2 := appendInt_two_length_int (civilFromDays (a / 86400)).2.2 (by omega) (by omega)
  have l3 := appendInt_two_length_int (a % 86400 / 3600) (by omega) (by omega)
  have l4 := appendInt_two_length_int (a % 86400 % 3600 / 60) (by omega) (by omega)
  have l5 := appendInt_two_length_int (a % 86400 % 60) (by omega) (by omega)
  have r1 := appendInt_two_length_int (civilFromDays (b / 86400)).2.1 (by omega) (by omega)
  have r2 := appendInt_two_length_int (civilFromDays (b / 86400)).2.2 (by omega) (by omega)
  have r3 := appendInt_two_length_int (b % 86400 / 3600) (by omega) (by omega)
  have r4 := appendInt_two_length_int (b % 86400 % 3600 / 60) (by omega) (by omega)
  have r5 := appendInt_two_length_int (b % 86400 % 60) (by omega) (by omega)
  obtain ⟨e0, h⟩ := List.append_inj' h (by simp [l1, l2, l3, l4, l5, r1, r2, r3, r4, r5])
  obtain ⟨e1, h⟩ := List.append_inj h (by rw [l1, r1])
  obtain ⟨e2, h⟩ := List.append_inj h (by rw [l2, r2])
  obtain ⟨e3, h⟩ := List.append_inj h (by rw [l3, r3])
  obtain ⟨e4, e5⟩ := List.append_inj h (by rw [l4, r4])
  have f0 := appendInt_injective 4 _ _ e0
  have f1 := appendInt_injective 2 _ _ e1
  have f2 := appendInt_injective 2 _ _ e2
  have f3 := appendInt_injective 2 _ _ e3
  have f4 := appendInt_injective 2 _ _ e4
  have f5 := appendInt_injective 2 _ _ e5
  have hdays : a / 86400 = b / 86400 := by
    rw [← hra, ← hrb, f0, f1, f2]
  have split : ∀ x : Int, 0 ≤ x →
      x = 3600 * (x / 3600) + 60 * (x % 3600 / 60) + x % 60 := by
    intro x hx
    omega
  have hsec : a % 86400 = b % 86400 := by
    rw [split (a % 86400) ha0, split (b % 86400) hb0, f3, f4, f5]
  have hA := Int.ediv_add_emod a 86400
  have hB := Int.ediv_add_emod b 86400
  rw [← hA, ← hB, hdays, hsec]

theorem format14_mem (t : Time) (c : Char) (h : c ∈ format14 t) :
    c = '-' ∨ ∃ d, d < 10 ∧ c = digitChar d := by
  simp only [format14, List.mem_append] at h
  rcases h with ((((h | h) | h) | h) | h) | h <;> exact appendInt_mem _ _ _ h

theorem format14_no_separator (t : Time) : '_' ∉ format14 t ∧ '/' ∉ format14 t := by
  constructor
  · intro h
    rcases format14_mem t _ h with h | ⟨d, hd, h⟩
    · revert h; decide
    · exact (digitChar_ne d hd).2.1 h.symm
  · intro h
    rcases format14_mem t _ h with h | ⟨d, hd, h⟩
    · revert h; decide
    · exact (digitChar_ne d hd).2.2 h.symm

theorem splitSlash_ne_nil (l : List Char) : splitSlash l ≠ [] := by
  cases l with
  | nil => simp [splitSlash]
  | cons c cs =>
    simp only [splitSlash]
    split_ifs
    · simp
    · split <;> simp

theorem splitSlash_append (a b : List Char) :
    splitSlash (a ++ '/' :: b) = splitSlash a ++ splitSlash b := by
  induction a with
  | nil => simp [splitSlash]
  | cons c cs ih =>
    simp only [List.cons_append, splitSlash, List.append_eq]
    split_ifs with hc
    · rw [ih]; simp
    · rw [ih]
      cases hs : splitSlash cs with
      | nil => exact absurd hs (splitSlash_ne_nil cs)
      | cons e es => simp

theorem splitSlash_simple (n : List Char) (h : '/' ∉ n) : splitSlash n = [n] := by
  induction n with
  | nil => rfl
  | cons c cs ih =>
    have hc : c ≠ '/' := fun e => h (by simp [e])
    have hcs : '/' ∉ cs := fun e => h (List.mem_cons_of_mem _ e)
    simp [splitSlash, hc, ih hcs]

theorem intercalate_snoc (sep : List Char) :
    ∀ l : List (List Char), ∃ P : List Char, ∀ x : List Char,
      List.intercalate sep (l ++ [x]) = P ++ x := by
  intro l
  induction l with
  | nil => exact ⟨[], fun x => by simp [List.intercalate]⟩
  | cons a rest ih =>
    obtain ⟨P, hP⟩ := ih
    refine ⟨a ++ sep ++ P, fun x => ?_⟩
    have h := hP x
    cases hr : rest ++ [x] with
    | nil => simp at hr
    | cons y ys =>
      rw [hr] at h
      simp only [List.cons_append, hr, List.intercalate, List.intersperse, List.flatten_cons,
        List.append_assoc] at h ⊢
      rw [h]

theorem Join_simple (dir : List Char) :
    ∃ P : List Char, ∀ n : List Char, '/' ∉ n → n ≠ [] → n ≠ ['.'] → n ≠ ['.', '.'] →
      Join dir n = P ++ n := by
  by_cases hdir : dir = []
  · refine ⟨[], fun n hs hne h1 h2 => ?_⟩
    have hhead : n.head? ≠ some '/' := by
      cases n with
      | nil => simp
      | cons c cs =>
        have hc : c ≠ '/' := fun e => hs (by simp [e])
        simpa using hc
    simp [Join, hdir, hne, Clean, splitSlash_simple n hs, cleanElem, h1, h2, hhead,
      List.intercalate]
  · obtain ⟨P, hP⟩ := intercalate_snoc ['/']
      ((splitSlash dir).foldl (cleanElem (decide (dir.head? = some '/'))) [])
    refine ⟨if dir.head? = some '/' then '/' :: P else P, fun n hs hne h1 h2 => ?_⟩
    have hhead : (dir ++ '/' :: n).head? = dir.head? := by
      cases dir with
      | nil => exact absurd rfl hdir
      | cons c cs => rfl
    have hsplit : splitSlash (dir ++ '/' :: n) = splitSlash dir ++ [n] := by
      rw [splitSlash_append, splitSlash_simple n hs]
    have hstep : ∀ out, cleanElem (decide (dir.head? = some '/')) out n = out ++ [n] := by
      intro out
      simp [cleanElem, hne, h1, h2]
    simp only [Join, hdir, ne_eq, not_false_eq_true, if_true, Clean, List.append_eq_nil,
      false_and, if_false, hhead, hsplit, List.foldl_append, List.foldl_cons, List.foldl_nil,
      hstep, hP]
    split_ifs <;> simp_all

theorem split_at_last (c : Char) :
    ∀ (a a1 b b1 : List Char), c ∉ b → c ∉ b1 → a ++ c :: b = a1 ++ c :: b1 →
      a = a1 ∧ b = b1 := by
  intro a
  induction a with
  | nil =>
    intro a1 b b1 hb _ h
    cases a1 with
    | nil => exact ⟨rfl, by simpa using h⟩
    | cons x xs =>
      simp only [List.nil_append, List.cons_append, List.cons.injEq] at h
      exact absurd (by rw [h.2]; simp) hb
  | cons y ys ih =>
    intro a1 b b1 hb hb1 h
    cases a1 with
    | nil =>
      simp only [List.nil_append, List.cons_append, List.cons.injEq] at h
      exact absurd (by rw [← h.2]; simp) hb1
    | cons x xs =>
      simp only [List.cons_append, List.cons.injEq] at h
      obtain ⟨h1, h2⟩ := ih xs b b1 hb hb1 h.2
      exact ⟨by rw [h.1, h1], h2⟩

theorem fileName_simple (host table : List Char) (s : Time) (hh : '/' ∉ host)
    (ht : '/' ∉ table) :
    '/' ∉ table ++ "_".toList ++ host ++ "_".toList ++ format14 s ++ ".parquet".toList ∧
    table ++ "_".toList ++ host ++ "_".toList ++ format14 s ++ ".parquet".toList ≠ [] ∧
    table ++ "_".toList ++ host ++ "_".toList ++ format14 s ++ ".parquet".toList ≠ ['.'] ∧
    table ++ "_".toList ++ host ++ "_".toList ++ format14 s ++ ".parquet".toList
      ≠ ['.', '.'] := by
  have hlen : 8 ≤ (table ++ "_".toList ++ host ++ "_".toList ++ format14 s
      ++ ".parquet".toList).length := by
    simp only [List.length_append]
    have : (".parquet".toList).length = 8 := by decide
    omega
  refine ⟨?_, ?_, ?_, ?_⟩
  · intro h
    simp only [List.mem_append] at h
    rcases h with ((((h | h) | h) | h) | h) | h
    · exact ht h
    · revert h; decide
    · exact hh h
    · revert h; decide
    · exact (format14_no_separator s).2 h
    · revert h; decide
  · intro h; rw [h] at hlen; simp at hlen
  · intro h; rw [h] at hlen; simp at hlen
  · intro h; rw [h] at hlen; simp at hlen

/-- C3, amended (uniqueness of the destination paths). For host names that contain no
underscore and host and table names that contain no slash, two units of a run that
differ in host, table or slot begin have different destination paths. -/
theorem fp_injective (g : Globals) (host1 table1 : List Char) (s1 : Time)
    (host2 table2 : List Char) (s2 : Time)
    (hu1 : '_' ∉ host1) (hu2 : '_' ∉ host2) (hs1 : '/' ∉ host1) (hs2 : '/' ∉ host2)
    (ht1 : '/' ∉ table1) (ht2 : '/' ∉ table2)
    (hne : (host1, table1, s1) ≠ (host2, table2, s2)) :
    fp g host1 table1 s1 ≠ fp g host2 table2 s2 := by
  intro h
  apply hne
  obtain ⟨P, hP⟩ := Join_simple g.hdfsDir
  obtain ⟨a1, a2, a3, a4⟩ := fileName_simple host1 table1 s1 hs1 ht1
  obtain ⟨b1, b2, b3, b4⟩ := fileName_simple host2 table2 s2 hs2 ht2
  simp only [fp] at h
  rw [hP _ a1 a2 a3 a4, hP _ b1 b2 b3 b4] at h
  have h1 := List.append_cancel_left h
  have h2 := (List.append_inj' h1 rfl).1
  have e1 : ∀ (t hst : List Char) (s : Time),
      t ++ "_".toList ++ hst ++ "_".toList ++ format14 s
        = (t ++ '_' :: hst) ++ '_' :: format14 s := by
    intro t hst s
    simp
  rw [e1, e1] at h2
  obtain ⟨h3, h4⟩ := split_at_last '_' _ _ _ _ (format14_no_separator s1).1
    (format14_no_separator s2).1 h2
  obtain ⟨h5, h6⟩ := split_at_last '_' _ _ _ _ hu1 hu2 h3
  rw [h5, h6, format14_injective s1 s2 h4]

theorem fp_injective_witness :
    fp defaults "192.168.101.106".toList "sensor_dt_result_online22".toList 1577836800
      ≠ fp defaults "192.168.101.108".toList "sensor_dt_result_online22".toList 1577836800 :=
  fp_injective defaults _ _ _ _ _ _ (by decide) (by decide) (by decide) (by decide)
    (by decide) (by decide) (by decide)

set_option maxRecDepth 100000 in
/-- C3 as stated fails. The tables `events` and `events_ck` on the hosts `ck_node1` and
`node1` give, for the same slot begin, two different units with one and the same
destination path `/user/root/events_ck_node1_20200101000000.parquet`. -/
theorem fp_collision :
    fp defaults "ck_node1".toList "events".toList 1577836800
      = "/user/root/events_ck_node1_20200101000000.parquet".toList ∧
    fp defaults "node1".toList "events_ck".toList 1577836800
      = "/user/root/events_ck_node1_20200101000000.parquet".toList ∧
    ¬ PathUniquenessClaim defaults := by
  have h1 : fp defaults "ck_node1".toList "events".toList 1577836800
      = "/user/root/events_ck_node1_20200101000000.parquet".toList := by decide
  have h2 : fp defaults "node1".toList "events_ck".toList 1577836800
      = "/user/root/events_ck_node1_20200101000000.parquet".toList := by decide
  refine ⟨h1, h2, ?_⟩
  intro hclaim
  exact hclaim "ck_node1".toList "events".toList 1577836800 "node1".toList "events_ck".toList
    1577836800 (by decide) (by rw [h1, h2])


end Ckman
